import Mathlib

/-!
Shallow embedding of the cesr-decoder repository (JavaScript) in Lean 4.

Conventions used throughout:
* A JavaScript `Uint8Array` is a `List Nat` whose members are below 256;
  theorems that quantify over byte arrays carry that bound as a hypothesis
  where it matters.
* A thrown JavaScript error is an `Except.error` carrying an `Err` value that
  records the error class (and the fields the decoders actually inspect).
* `TextEncoder`/`TextDecoder` (modules/utf8.js) are modelled exactly on
  ASCII: encoding emits the standard UTF-8 bytes of each scalar value, and
  decoding maps each byte below 128 to the corresponding character and every
  other byte to U+FFFD (as `TextDecoder` does for a stray continuation or
  lead byte).  All text that the decoders look up in code tables is ASCII, so
  the difference (reassembly of valid multi-byte sequences) is unreachable in
  every theorem below.
* The generated code-table data (`cesr-tables.js`: `MatterHards`,
  `CounterHards`, `CesrTables`) is not under src/; per the spec it is an
  external, pre-generated lookup.  It is modelled from the spec as explicit
  parameters (`HardTables`, and the `Protocol`/`CodeTable` capability
  records), constrained per-theorem.
-/

namespace Cesr

/-- Error classes of the repository (cesr.js plus the plain `Error`s thrown
inline by the parser and codec modules).  `shortage need` is `ShortageError`;
the `need` field is the byte count printed in its message (`none` for the
"Empty material" shortage, which reports no count).  `nonZeroPadBits` and
`nonZeroLeadBytes` are the plain `Error`s whose messages start with
"Non-zeroed pad bits" / "Non-zeroed lead byte(s)".  `invalidCharacter` is the
argument-less `Error` thrown by `Hex.valueOf`/`Base64.valueOf` and the
`InvalidCharacterError` thrown by `atob`; `invalidLength` is the
`Error("Invalid hex string")` of `Hex.decode`. -/
inductive Err where
  | typeError (msg : String)
  | shortage (need : Option Nat)
  | unknownCode (ctx : String) (code : String)
  | unexpectedCountCode
  | unexpectedOpCode
  | unexpectedCode (code : String)
  | conversionError
  | nonZeroPadBits
  | nonZeroLeadBytes
  | invalidCharacter
  | invalidLength
  | genericError (msg : String)
deriving DecidableEq

/-- converters.js `readInt`: big-endian accumulation `value = value * 256 + b`.
JavaScript computes this in IEEE doubles, which is exact below 2^53; every use
in the sources reads at most a handful of bytes. -/
def readInt (a : List Nat) : Nat :=
  a.foldl (fun value b => value * 256 + b) 0

/-- UTF-8 bytes of one character (the `TextEncoder` encoding of one scalar
value). -/
def utf8EncodeChar (c : Char) : List Nat :=
  let n := c.toNat
  if n < 128 then [n]
  else if n < 2048 then [192 + n / 64, 128 + n % 64]
  else if n < 65536 then [224 + n / 4096, 128 + (n / 64) % 64, 128 + n % 64]
  else [240 + n / 262144, 128 + (n / 4096) % 64, 128 + (n / 64) % 64, 128 + n % 64]

/-- modules/utf8.js `Utf8.encode` (TextEncoder). -/
def utf8Encode (s : String) : List Nat :=
  s.data.foldr (fun c acc => utf8EncodeChar c ++ acc) []

/-- One byte of decoder output: ASCII bytes decode to themselves, any other
byte to the replacement character (see the module header comment). -/
def byteChar (b : Nat) : Char :=
  if b < 128 then Char.ofNat b else Char.ofNat 65533

/-- modules/utf8.js `Utf8.decode` (TextDecoder), exact on ASCII input. -/
def utf8Decode (bs : List Nat) : String :=
  ⟨bs.map byteChar⟩

/-- `String.fromCharCode` on one byte (latin-1: code unit = code point). -/
def fromCharCode (b : Nat) : Char := Char.ofNat b

/-- The standard Base64 alphabet used by `btoa`/`atob`. -/
def B64STD : List Char :=
  "ABCDEFGHIJKLMNOPQRSTUVWXYZabcdefghijklmnopqrstuvwxyz0123456789+/".data

/-- base64.js private `#BASE64` URL-safe alphabet. -/
def B64URL : List Char :=
  "ABCDEFGHIJKLMNOPQRSTUVWXYZabcdefghijklmnopqrstuvwxyz0123456789-_".data

/-- Character of a 6-bit value in the standard alphabet. -/
def b64ChrStd (v : Nat) : Char := B64STD.getD v 'A'

/-- Index of a character in the standard alphabet, if present. -/
def b64ValStd (c : Char) : Option Nat := B64STD.findIdx? (fun x => x = c)

/-- base64.js `Base64.valueOf`: linear search of the URL-safe alphabet,
throwing on a miss. -/
def b64ValueOf (ch : Char) : Except Err Nat :=
  match B64URL.findIdx? (fun x => x = ch) with
  | some i => .ok i
  | none => .error .invalidCharacter

/-- base64.js `Base64.toInt`: big-endian base-64 digit accumulation
(`result <<= 6; result |= v`).  The JavaScript shifts are 32-bit, which agrees
with plain arithmetic for results below 2^31; all soft-size fields decoded in
the sources are at most a few digits. -/
def b64ToInt (value : String) : Except Err Nat :=
  value.data.foldlM (fun r c => (b64ValueOf c).map (fun v => r * 64 + v)) 0

/-- `btoa` on a byte list (the composite `String.fromCharCode` ∘ `btoa` the
source performs): standard Base64 with `=` padding, three bytes per four
characters. -/
def btoa : List Nat → List Char
  | b0 :: b1 :: b2 :: rest =>
      b64ChrStd (b0 / 4) :: b64ChrStd (b0 % 4 * 16 + b1 / 16) ::
      b64ChrStd (b1 % 16 * 4 + b2 / 64) :: b64ChrStd (b2 % 64) :: btoa rest
  | [b0, b1] => [b64ChrStd (b0 / 4), b64ChrStd (b0 % 4 * 16 + b1 / 16), b64ChrStd (b1 % 16 * 4), '=']
  | [b0] => [b64ChrStd (b0 / 4), b64ChrStd (b0 % 4 * 16), '=', '=']
  | [] => []

/-- Four 6-bit values to three bytes, with the forgiving-base64 tail rule
(two values give one byte, three give two; a lone leftover value is dropped —
the length-mod-4-equals-1 case is rejected before this function runs). -/
def b64ValsToBytes : List Nat → List Nat
  | v0 :: v1 :: v2 :: v3 :: rest =>
      (v0 * 4 + v1 / 16) :: (v1 % 16 * 16 + v2 / 4) :: (v2 % 4 * 64 + v3) ::
      b64ValsToBytes rest
  | [v0, v1] => [v0 * 4 + v1 / 16]
  | [v0, v1, v2] => [v0 * 4 + v1 / 16, v1 % 16 * 16 + v2 / 4]
  | _ => []

/-- ASCII whitespace removed by forgiving-base64 (`atob`). -/
def isJsB64Ws (c : Char) : Bool :=
  c = ' ' || c = Char.ofNat 9 || c = Char.ofNat 10 || c = Char.ofNat 12 || c = Char.ofNat 13

/-- Remove up to two trailing `=` characters. -/
def stripTrailingEq2 (s : List Char) : List Char :=
  match s.reverse with
  | c1 :: c2 :: rest =>
      if c1 = '=' then (if c2 = '=' then rest.reverse else (c2 :: rest).reverse) else s
  | [c1] => if c1 = '=' then [] else s
  | [] => s

/-- The 6-bit values of a character list, `none` when some character is
outside the standard alphabet. -/
def b64Vals? : List Char → Option (List Nat)
  | [] => some []
  | c :: t =>
    match b64ValStd c, b64Vals? t with
    | some v, some vs => some (v :: vs)
    | _, _ => none

/-- `atob` (WHATWG forgiving-base64 decode): strip ASCII whitespace; if the
length is a multiple of four, drop up to two trailing `=`; reject a length of
1 mod 4 and any remaining character outside the standard alphabet; convert
each remaining character to six bits and emit whole bytes. -/
def atob (s : List Char) : Except Err (List Nat) :=
  let d := s.filter (fun c => ¬ isJsB64Ws c)
  let d := if d.length % 4 = 0 then stripTrailingEq2 d else d
  if d.length % 4 = 1 then .error .invalidCharacter
  else
    match b64Vals? d with
    | some vals => .ok (b64ValsToBytes vals)
    | none => .error .invalidCharacter

/-- The character replacement `-` to `+`, `_` to `/` performed before
`atob`. -/
def stdOf (c : Char) : Char :=
  if c = '-' then '+' else if c = '_' then '/' else c

/-- base64.js `Base64.decodeBase64Url`: bytes to characters, URL-safe to
standard alphabet, pad to a 4-character boundary with `=`, then `atob`. -/
def decodeBase64Url (array : List Nat) : Except Err (List Nat) :=
  let s := (array.map fromCharCode).map stdOf
  let modRemainder := s.length % 4
  let padCharCount := if modRemainder > 0 then 4 - modRemainder else 0
  atob (s ++ List.replicate padCharCount '=')

/-- Remove every trailing `=` (the `replace` of `/=+$/`). -/
def stripAllTrailingEq (s : List Char) : List Char :=
  (s.reverse.dropWhile (fun c => c = '=')).reverse

/-- The character replacement `+` to `-`, `/` to `_` performed after
`btoa`. -/
def urlOf (c : Char) : Char :=
  if c = '+' then '-' else if c = '/' then '_' else c

/-- base64.js `Base64.encodeBase64Url`: `btoa`, standard to URL-safe
alphabet, optionally strip the `=` padding. -/
def encodeBase64Url (array : List Nat) (strip : Bool) : List Char :=
  let s := (btoa array).map urlOf
  if strip then stripAllTrailingEq s else s

/-- hex.js private `#HEX` alphabet. -/
def HEXCHARS : List Char := "0123456789ABCDEF".data

/-- hex.js `Hex.valueOf`: linear search, throwing on a miss. -/
def hexValueOf (ch : Char) : Except Err Nat :=
  match HEXCHARS.findIdx? (fun x => x = ch) with
  | some i => .ok i
  | none => .error .invalidCharacter

/-- JavaScript `String.prototype.toUpperCase` on ASCII text. -/
def jsToUpper (s : String) : String :=
  ⟨s.data.map Char.toUpper⟩

/-- hex.js `Hex.toInt`: upper-case, then big-endian hex accumulation
(`result <<= 4; result |= v`; 32-bit shifts, exact below 2^31 — every call
site feeds at most six digits). -/
def hexToInt (value : String) : Except Err Nat :=
  (jsToUpper value).data.foldlM (fun r c => (hexValueOf c).map (fun v => r * 16 + v)) 0

/-- hex.js `Hex.encode`: `byte.toString(16).padStart(2, '0')` per byte
(two lowercase hex digits for bytes below 256). -/
def hexEncode (uint8Array : List Nat) : String :=
  ⟨uint8Array.foldr (fun b acc =>
    "0123456789abcdef".data.getD (b / 16) '0' ::
    "0123456789abcdef".data.getD (b % 16) '0' :: acc) []⟩

/-- JavaScript `String.prototype.substring`: indices are swapped when the
first exceeds the second. -/
def jsSubstring (s : String) (a b : Nat) : String :=
  ⟨(s.data.take (max a b)).drop (min a b)⟩

def isJsHexDigit (c : Char) : Bool :=
  ('0' ≤ c && c ≤ '9') || ('a' ≤ c && c ≤ 'f') || ('A' ≤ c && c ≤ 'F')

def jsHexDigitVal (c : Char) : Nat :=
  if '0' ≤ c && c ≤ '9' then c.toNat - '0'.toNat
  else if 'a' ≤ c && c ≤ 'f' then c.toNat - 'a'.toNat + 10
  else c.toNat - 'A'.toNat + 10

/-- JavaScript `parseInt(s, 16)`: skip whitespace, optional sign, optional
`0x`/`0X` prefix, then the longest run of hex digits; `none` is `NaN`. -/
def jsParseIntHex (s : String) : Option Int :=
  let t := s.data.dropWhile (fun c => isJsB64Ws c)
  let st : Int × List Char :=
    match t with
    | '-' :: r => (-1, r)
    | '+' :: r => (1, r)
    | _ => (1, t)
  let t2 : List Char :=
    match st.2 with
    | '0' :: 'x' :: r => r
    | '0' :: 'X' :: r => r
    | _ => st.2
  let ds := t2.takeWhile isJsHexDigit
  if ds = [] then none
  else some (st.1 * (ds.foldl (fun a c => a * 16 + jsHexDigitVal c) 0 : Nat))

/-- Storing a `parseInt` result in a `Uint8Array` slot: `NaN` stores 0, other
values are reduced mod 256. -/
def uint8Store : Option Int → Nat
  | none => 0
  | some v => (v.emod 256).toNat

/-- hex.js `Hex.decode`, byte-for-byte faithful to the source: an odd length
throws `Error("Invalid hex string")`; otherwise slot `i / 2` receives
`parseInt(hexString.substring(i, 2), 16)` — note the fixed end index `2`
taken verbatim from the source line. -/
def hexDecodeJS (hexString : String) : Except Err (List Nat) :=
  if hexString.length % 2 ≠ 0 then .error .invalidLength
  else .ok ((List.range (hexString.length / 2)).map (fun k =>
    uint8Store (jsParseIntHex (jsSubstring hexString (2 * k) 2))))

/-- JavaScript `String.prototype.slice(a, b)` for in-order indices (every call
in the sources uses `0 ≤ a ≤ b`). -/
def strSlice (s : String) (a b : Nat) : String :=
  ⟨(s.data.take b).drop a⟩

/-- cesr.js `Serials.json`. -/
def Serials.json : String := "JSON"

/-- cesr-schema.js sizes record `{hs, ss, fs, ls}` of a code-table spec (spec
§3: hard size, soft size, optional fixed total size, lead-byte count; only
`fs` is optional). -/
structure MatterSizes where
  hs : Nat
  ss : Nat
  fs : Option Nat
  ls : Nat
deriving DecidableEq

/-- cesr.js `CesrDerivationCode`: the typed header of a coded CESR value.
`value` is the full code text, `selector` its leading hard part.  The
`serial` and `version` fields start out unset and are assigned by the stream
decoder (hex.js `CesrDecoder.values`).  The back-reference `table` is not
modelled: no decoding decision in the sources reads it (the schema `isFrame`
/`isGroup` capabilities are abstracted into `Protocol` below). -/
structure DerivationCode where
  value : String
  selector : String
  type : String
  digits : Option String
  typeName : Option String
  leadBytes : Option Nat
  size : Option Nat
  count : Option Nat
  quadlets : Option Nat
  version : Option String
  index : Option Int
  ondex : Option Int
  serial : Option String
deriving DecidableEq

/-- cesr.js `CesrVersionHeader` as built by `getJsonFrame`: the version
string, serialization kind, protocol, hex digits, and the size the `size`
getter computes from the digits (`Hex.toInt`); `getJsonFrame` in this model
evaluates the getter at its first use, in source order. -/
structure CesrVersionHeader where
  value : String
  serial : String
  proto : String
  digits : String
  size : Nat
deriving DecidableEq

/-- A decoded header: either a version header or a derivation code. -/
inductive CesrHeader where
  | version (vh : CesrVersionHeader)
  | derivation (dc : DerivationCode)
deriving DecidableEq

/-- cesr-parser.js `CesrValue`: a header plus the encoded bytes it covers;
`length` is `value.length`. -/
structure CesrValue where
  header : CesrHeader
  value : List Nat
deriving DecidableEq

/-- cesr.js `CesrCodeTable` capability as consumed by the parsers: `codeSize`,
`mapCodeHeader`, `getTotalLength`, plus the `spec.sizes` record read by
`fromMatterQB64b`/`fromCounterQB64b` (`none` when the spec carries no sizes;
destructuring it then throws a `TypeError`). -/
structure CodeTable where
  codeSize : Nat
  mapCodeHeader : String → Except Err DerivationCode
  getTotalLength : DerivationCode → Except Err Nat
  sizes : Option MatterSizes

/-- cesr.js `CesrProtocol` capability (spec §4.2/§6): selector sizing, code
table lookup, the frame/group classification used by the stream decoder, and
the optional sub-protocol context of a group.  Recursive because
`getContext` returns another protocol. -/
inductive Protocol where
  | mk (name : String)
       (getSelectorSize : String → Nat)
       (getCodeTable : String → Except Err CodeTable)
       (isFrame : DerivationCode → Bool)
       (isGroup : DerivationCode → Bool)
       (hasContext : DerivationCode → Bool)
       (getContext : DerivationCode → Option Protocol)

def Protocol.name : Protocol → String
  | .mk n _ _ _ _ _ _ => n

def Protocol.getSelectorSize : Protocol → String → Nat
  | .mk _ f _ _ _ _ _ => f

def Protocol.getCodeTable : Protocol → String → Except Err CodeTable
  | .mk _ _ f _ _ _ _ => f

def Protocol.isFrame : Protocol → DerivationCode → Bool
  | .mk _ _ _ f _ _ _ => f

def Protocol.isGroup : Protocol → DerivationCode → Bool
  | .mk _ _ _ _ f _ _ => f

def Protocol.hasContext : Protocol → DerivationCode → Bool
  | .mk _ _ _ _ _ f _ => f

def Protocol.getContext : Protocol → DerivationCode → Option Protocol
  | .mk _ _ _ _ _ _ f => f

/-- Modelled from the spec: the module-level hard-size tables of the missing
`cesr-tables.js` (`MatterHards`, `CounterHards`), abstracted as lookup
functions from a selector prefix to the hard size of the code (spec §4.3:
"look up its hard-size in a hard-size table"; matter keys are one character,
counter keys two). -/
structure HardTables where
  matterHards : String → Option Nat
  counterHards : String → Option Nat

/-- Modelled from the spec: `CountCodeStart` of the missing `cesr-tables.js`
(the `'-'` count-code start character; cesr-parser.js `ColdDex.CtB64`
documents it). -/
def CountCodeStart : Char := '-'

/-- Modelled from the spec: `OpCodeStart` of the missing `cesr-tables.js`
(the `'_'` op-code start character; cesr-parser.js `ColdDex.OpB64`
documents it). -/
def OpCodeStart : Char := '_'

/-- The `string | Uint8Array` union both parser modules accept. -/
inductive CesrInput where
  | str (s : String)
  | bytes (b : List Nat)

/-- part_003 `getCesrValue` (the newer parser module): resolve the selector,
look up the code table, map the header, and slice off the value bytes. -/
def getCesrValue003 (protocol : Protocol) (input : CesrInput) : Except Err CesrValue :=
  let p : String × List Nat :=
    match input with
    | .str s => (strSlice s 0 8, utf8Encode s)
    | .bytes b => (utf8Decode (b.take 8), b)
  let selector := p.1
  let inputB := p.2
  let selectorSize := protocol.getSelectorSize selector
  if selectorSize > selector.length then
    .error (.unknownCode ("getCesrValue " ++ protocol.name) selector)
  else
    match protocol.getCodeTable (strSlice selector 0 selectorSize) with
    | .error e => .error e
    | .ok table =>
      if table.codeSize > selector.length then
        .error (.unknownCode ("getCesrValue " ++ protocol.name) selector)
      else
        match table.mapCodeHeader (strSlice selector 0 table.codeSize) with
        | .error e => .error e
        | .ok code =>
          match table.getTotalLength code with
          | .error e => .error e
          | .ok total =>
            if total > inputB.length then
              .error (.unknownCode ("getCesrValue " ++ protocol.name) code.value)
            else
              let value := inputB.take total
              if total ≠ value.length then
                .error (.unknownCode ("getCesrValue " ++ protocol.name) code.value)
              else
                .ok ⟨.derivation code, value⟩

/-- part_003 `fromMatterQB64b` lines 304–328: pad-bit / lead-byte validation
and raw extraction from the already-truncated primitive `q` (code included).
`ps = cs % 4`; the `ps > 0` branch prepends `ps` `'A'` characters, decodes,
checks `pi & (2 ** pbs - 1)` with `pbs = 2 * ps`, and strips `ps` bytes; the
`ps = 0` branch decodes directly, checks the first `ls` bytes, and strips
them. -/
def matterRawExtract (cs ls : Nat) (q : List Nat) : Except Err (List Nat) :=
  let ps := cs % 4
  let pbs := 2 * (if ps > 0 then ps else ls)
  if ps > 0 then
    let base := List.replicate ps 65 ++ q.drop cs
    match decodeBase64Url base with
    | .error e => .error e
    | .ok paw =>
      let pi := readInt (paw.take ps)
      if pi &&& (2 ^ pbs - 1) ≠ 0 then .error .nonZeroPadBits
      else .ok (paw.drop ps)
  else
    let base := q.drop cs
    match decodeBase64Url base with
    | .error e => .error e
    | .ok paw =>
      let li := readInt (paw.take ls)
      if li > 0 then .error .nonZeroLeadBytes
      else .ok (paw.drop ls)

/-- part_003 `fromMatterQB64b`: extract one non-counter, non-indexed matter
primitive from qualified Base64 text/bytes, returning the hard code text, the
full size `fs`, and the raw bytes. -/
def fromMatterQB64b (tables : HardTables) (qb64bIn : CesrInput) (protocol : Protocol) :
    Except Err (String × Nat × List Nat) :=
  let qb64b : List Nat :=
    match qb64bIn with
    | .str s => utf8Encode s
    | .bytes b => b
  if qb64b.length = 0 then .error (.shortage none)
  else
    let first := utf8Decode (qb64b.take 1)
    match tables.matterHards first with
    | none =>
      if first.data.head? = some CountCodeStart then .error .unexpectedCountCode
      else if first.data.head? = some OpCodeStart then .error .unexpectedOpCode
      else .error (.unexpectedCode first)
    | some hardSize =>
      if qb64b.length < hardSize then .error (.shortage (some (hardSize - qb64b.length)))
      else
        let hard := utf8Decode (qb64b.take hardSize)
        match protocol.getCodeTable hard with
        | .error e => .error e
        | .ok table =>
          match table.sizes with
          | none => .error (.typeError "fromMatterQB64b: table.spec.sizes is undefined")
          | some sz =>
            let cs := sz.hs + sz.ss
            let fsE : Except Err Nat :=
              match sz.fs with
              | some f => .ok f
              | none =>
                if cs % 4 ≠ 0 then .error (.genericError "fromMatterQB64b: Code size not divisible by 4")
                else
                  let sizeChars := utf8Decode ((qb64b.take cs).drop sz.hs)
                  match b64ToInt sizeChars with
                  | .error e => .error e
                  | .ok size => .ok (size * 4 + cs)
            match fsE with
            | .error e => .error e
            | .ok fs =>
              if qb64b.length < fs then .error (.shortage (some (fs - qb64b.length)))
              else
                let q := qb64b.take fs
                match matterRawExtract cs sz.ls q with
                | .error e => .error e
                | .ok raw =>
                  if (raw.length : Int) ≠
                      Int.fdiv (((q.length : Int) - (cs : Int)) * 3) 4 - (sz.ls : Int) then
                    .error .conversionError
                  else .ok (hard, fs, raw)

/-- part_003 `toMatterQB64b`: qualify raw bytes under a fixed-size code (hard
part only): compute the net pad size, check it against the code-size
remainder, prepad `ps + ls` zero bytes, Base64-encode, drop the first
`cs % 4` characters, and prefix the code text. -/
def toMatterQB64b (raw : List Nat) (code : String) (protocol : Protocol) :
    Except Err (List Nat) :=
  match protocol.getCodeTable code with
  | .error e => .error e
  | .ok table =>
    match table.sizes with
    | none => .error (.typeError "toMatterQB64b: table.spec.sizes is undefined")
    | some sz =>
      let cs := sz.hs + sz.ss
      let rs := raw.length
      let ps := (3 - (rs + sz.ls) % 3) % 3
      if ((cs % 4 : Nat) : Int) ≠ (ps : Int) - (sz.ls : Int) then
        .error (.genericError "Invalid code size and raw pad size")
      else
        let prepad := List.replicate (ps + sz.ls) 0
        let paddedRaw := prepad ++ raw
        let b64Padded := encodeBase64Url paddedRaw true
        let unpaddedB64 := b64Padded.drop (cs % 4)
        .ok (utf8Encode (code ++ ⟨unpaddedB64⟩))

/-- part_003 `fromCounterQB64b`: extract a count code (two-character hard-size
lookup) and its base-64 count digits. -/
def fromCounterQB64b (tables : HardTables) (qb64bIn : CesrInput) (protocol : Protocol) :
    Except Err (String × Nat) :=
  let qb64b : List Nat :=
    match qb64bIn with
    | .str s => utf8Encode s
    | .bytes b => b
  if qb64b.length = 0 then .error (.shortage none)
  else
    let first := utf8Decode (qb64b.take 2)
    match tables.counterHards first with
    | none =>
      if first.data.head? = some OpCodeStart then .error .unexpectedOpCode
      else .error (.unexpectedCode first)
    | some hardSize =>
      if qb64b.length < hardSize then .error (.shortage (some (hardSize - qb64b.length)))
      else
        let hard := utf8Decode (qb64b.take hardSize)
        match protocol.getCodeTable hard with
        | .error e => .error e
        | .ok table =>
          match table.sizes with
          | none => .error (.typeError "fromCounterQB64b: table.spec.sizes is undefined")
          | some sz =>
            -- the source reads {hs, fs}; when fs is absent the shortage
            -- comparison with undefined is false and slice(hs, undefined)
            -- runs to the end of the input
            match sz.fs with
            | some f =>
              if qb64b.length < f then .error (.shortage (some (f - qb64b.length)))
              else
                match b64ToInt (utf8Decode ((qb64b.take f).drop sz.hs)) with
                | .error e => .error e
                | .ok countInt => .ok (hard, countInt)
            | none =>
              match b64ToInt (utf8Decode (qb64b.drop sz.hs)) with
              | .error e => .error e
              | .ok countInt => .ok (hard, countInt)

/-- part_003 `parsePrefixQB64`: delegates to `fromMatterQB64b`. -/
def parsePrefixQB64 (tables : HardTables) (protocol : Protocol) (input : CesrInput) :
    Except Err (String × Nat × List Nat) :=
  fromMatterQB64b tables input protocol

/-- part_003 `parseSeqnerQB64`: delegates to `fromMatterQB64b`. -/
def parseSeqnerQB64 (tables : HardTables) (protocol : Protocol) (input : CesrInput) :
    Except Err (String × Nat × List Nat) :=
  fromMatterQB64b tables input protocol

/-- part_003 `parseSaider`: delegates to `fromMatterQB64b`. -/
def parseSaider (tables : HardTables) (protocol : Protocol) (input : CesrInput) :
    Except Err (String × Nat × List Nat) :=
  fromMatterQB64b tables input protocol

/-- One iteration of the `getSealSourceTriples` loop body: three sequential
primitive parses over `triple` (as in the source, every iteration starts at
the front of `triple`). -/
def sealTripleSize (tables : HardTables) (protocol : Protocol) (triple : List Nat) :
    Except Err Nat :=
  match parsePrefixQB64 tables protocol (.bytes triple) with
  | .error e => .error e
  | .ok (_, prefixSize, _) =>
    match parseSeqnerQB64 tables protocol (.bytes (triple.drop prefixSize)) with
    | .error e => .error e
    | .ok (_, seqnerSize, _) =>
      match parseSaider tables protocol (.bytes (triple.drop (prefixSize + seqnerSize))) with
      | .error e => .error e
      | .ok (_, saiderSize, _) => .ok (prefixSize + seqnerSize + saiderSize)

/-- The `for (let i = 0; i < count; i++)` accumulation of
`getSealSourceTriples`. -/
def sealLoop (tables : HardTables) (protocol : Protocol) (triple : List Nat) :
    Nat → Nat → Except Err Nat
  | 0, acc => .ok acc
  | n + 1, acc =>
    match sealTripleSize tables protocol triple with
    | .error e => .error e
    | .ok s => sealLoop tables protocol triple n (acc + s)

/-- part_003 `getSealSourceTriples`: strip the count code, re-parse it as a
counter, walk `count` triples, and return the count code plus the triples as
one value with the derivation code's fields overwritten. -/
def getSealSourceTriples (tables : HardTables) (protocol : Protocol) (input : List Nat)
    (derivationCode : DerivationCode) : Except Err CesrValue :=
  match protocol.getCodeTable derivationCode.selector with
  | .error e => .error e
  | .ok table =>
    match table.getTotalLength derivationCode with
    | .error e => .error e
    | .ok fs =>
      let triple := input.drop fs
      match fromCounterQB64b tables (.bytes (input.take fs)) protocol with
      | .error e => .error e
      | .ok (_, count) =>
        match sealLoop tables protocol triple count 0 with
        | .error e => .error e
        | .ok tripleSize =>
          let dc := { derivationCode with
            leadBytes := some 0
            size := some fs
            count := some count
            index := some (-1)
            ondex := some (-1) }
          .ok ⟨.derivation dc, input.take (fs + tripleSize)⟩

/-- part_003 `getAttachedMaterialQuadlets`: `size = quadletCount * 4 +
codeLength`.  When the header carries no count, the source computes `NaN`:
the shortage comparison is false and `slice(0, NaN)` yields an empty value. -/
def getAttachedMaterialQuadlets (input : List Nat) (derivationCode : DerivationCode)
    (quadletCount : Option Nat) (codeLength : Nat) : Except Err CesrValue :=
  match quadletCount with
  | some qc =>
    let size := qc * 4 + codeLength
    if size > input.length then
      .error (.unknownCode "getAttachedMaterialQuadlets not enough data for" derivationCode.value)
    else .ok ⟨.derivation derivationCode, input.take size⟩
  | none => .ok ⟨.derivation derivationCode, []⟩

/-- part_003 `getTextFrame`: decode the leading coded value and dispatch on
its selector (`-I` seal-source triples, `-V`/`-0V` attached material
quadlets).  A version header has no `selector` (undefined), which falls to
the switch default. -/
def getTextFrame003 (tables : HardTables) (protocol : Protocol) (input : List Nat) :
    Except Err CesrValue :=
  match getCesrValue003 protocol (.bytes input) with
  | .error e => .error e
  | .ok cesrValue =>
    match cesrValue.header with
    | .derivation dc =>
      if dc.selector = "-I" then
        getSealSourceTriples tables protocol input dc
      else if dc.selector = "-V" then
        getAttachedMaterialQuadlets input dc dc.count dc.value.length
      else if dc.selector = "-0V" then
        getAttachedMaterialQuadlets input dc dc.count dc.value.length
      else .error (.unknownCode "getTextFrame" dc.value)
    | .version _ => .error (.unknownCode "getTextFrame" "")

/-- The version-string pattern of `getJsonFrame`:
`/^{"\w{1}":"(\w{16})_"/` applied to the 24-character window, returning the
captured 16 word characters. -/
def matchVersionPattern (s : String) : Option String :=
  match s.data with
  | c0 :: c1 :: w :: c3 :: c4 :: c5 :: rest =>
    if c0 = Char.ofNat 123 ∧ c1 = '"' ∧ (w.isAlphanum ∨ w = '_') ∧
        c3 = '"' ∧ c4 = ':' ∧ c5 = '"' then
      let v := rest.take 16
      if v.length = 16 ∧ v.all (fun c => c.isAlphanum || c = '_') then
        match rest.drop 16 with
        | '_' :: '"' :: _ => some ⟨v⟩
        | _ => none
      else none
    else none
  | _ => none

/-- part_003 `getJsonFrame`: match the version-string pattern on the first 24
bytes, build the version header, require the JSON serialization kind, then —
the source constructs (but does not throw) an `UnknownCodeError` when the
declared size exceeds the input — slice the declared size off the input. -/
def getJsonFrame003 (input : List Nat) : Except Err CesrValue :=
  let versionStrHeader := utf8Decode (input.take 24)
  match matchVersionPattern versionStrHeader with
  | none => .error (.unknownCode "getJsonFrame" versionStrHeader)
  | some versionStr =>
    let serial := strSlice versionStr 6 10
    let proto := strSlice versionStr 0 6
    let digits := strSlice versionStr 10 16
    if Serials.json ≠ serial then .error (.unknownCode "getJsonFrame" versionStr)
    else
      -- the `size` getter runs when `code.size` is first read, on the
      -- (throwless) comparison line
      match hexToInt digits with
      | .error e => .error e
      | .ok size =>
        -- `if (code.size > input.length) new UnknownCodeError(...)`:
        -- constructed and discarded, no throw — modelled as a no-op
        .ok ⟨.version ⟨versionStr, serial, proto, digits, size⟩, input.take size⟩

/-- part_003 `getCesrFrame` (the `Parser.sniff` operation): dispatch on the
first byte's top three bits — 1 (`CtB64`) to the text frame, 3 (`JSON`) to
the JSON frame, everything else to `UnknownCodeError('getCesrFrame',
input[0])`.  An empty input indexes as `undefined`, whose shift coerces
to tritet 0. -/
def getCesrFrame003 (tables : HardTables) (protocol : Protocol) (inputIn : CesrInput) :
    Except Err CesrValue :=
  let input : List Nat :=
    match inputIn with
    | .str s => utf8Encode s
    | .bytes b => b
  let tritet := input.headD 0 / 32
  if tritet = 1 then getTextFrame003 tables protocol input
  else if tritet = 3 then getJsonFrame003 input
  else .error (.unknownCode "getCesrFrame" (toString (input.headD 0)))

/-- part_002 `getCesrValue` (the older parser module), modelled independently
from its own source text. -/
def getCesrValue002 (protocol : Protocol) (input : CesrInput) : Except Err CesrValue :=
  let p : String × List Nat :=
    match input with
    | .str s => (strSlice s 0 8, utf8Encode s)
    | .bytes b => (utf8Decode (b.take 8), b)
  let selector := p.1
  let inputB := p.2
  let selectorSize := protocol.getSelectorSize selector
  if selectorSize > selector.length then
    .error (.unknownCode ("getCesrValue " ++ protocol.name) selector)
  else
    match protocol.getCodeTable (strSlice selector 0 selectorSize) with
    | .error e => .error e
    | .ok table =>
      if table.codeSize > selector.length then
        .error (.unknownCode ("getCesrValue " ++ protocol.name) selector)
      else
        match table.mapCodeHeader (strSlice selector 0 table.codeSize) with
        | .error e => .error e
        | .ok code =>
          match table.getTotalLength code with
          | .error e => .error e
          | .ok total =>
            if total > inputB.length then
              .error (.unknownCode ("getCesrValue " ++ protocol.name) code.value)
            else
              let value := inputB.take total
              if total ≠ value.length then
                .error (.unknownCode ("getCesrValue " ++ protocol.name) code.value)
              else
                .ok ⟨.derivation code, value⟩

/-- part_002 `getJsonFrame`, modelled independently from its own source text
(it carries the same throwless size comparison as part_003). -/
def getJsonFrame002 (input : List Nat) : Except Err CesrValue :=
  let versionStrHeader := utf8Decode (input.take 24)
  match matchVersionPattern versionStrHeader with
  | none => .error (.unknownCode "getJsonFrame" versionStrHeader)
  | some versionStr =>
    let serial := strSlice versionStr 6 10
    let proto := strSlice versionStr 0 6
    let digits := strSlice versionStr 10 16
    if Serials.json ≠ serial then .error (.unknownCode "getJsonFrame" versionStr)
    else
      match hexToInt digits with
      | .error e => .error e
      | .ok size =>
        .ok ⟨.version ⟨versionStr, serial, proto, digits, size⟩, input.take size⟩

/-- hex.js `Group`: one pending group marker.  `protocol` is the optional
sub-protocol context applied to the grouped value; `value` is the mapped
result stored on the marker (the source never reads it back, but it makes
"identical markers" observable).  The `next` link is the list structure. -/
structure GroupMarker where
  protocol : Option Protocol
  value : CesrValue

/-- Which extraction function a frame uses (`Frame.valueGetter`):
`getCesrFrame` on the root/cold-start frame, `getCesrValue` on nested
frames. -/
inductive ValueGetter where
  | frame
  | value
deriving DecidableEq

/-- hex.js `Frame`: end offset (`undefined` on the root frame), extraction
mode, and the stack of pending group markers.  The stored `value` object is
omitted: the source writes it at construction and never reads it. -/
structure Frame where
  endOffset : Option Nat
  valueGetter : ValueGetter
  group : List GroupMarker

/-- hex.js `DecoderState`: the current frame, the stack of outer frames
(`next` links), and the read cursor `start`. -/
structure DecoderState where
  currentFrame : Frame
  stack : List Frame
  start : Nat

/-- `new DecoderState(value)`: a single cold-start root frame with no end
offset and `getCesrFrame` extraction, cursor 0. -/
def DecoderState.init : DecoderState :=
  ⟨⟨none, .frame, []⟩, [], 0⟩

/-- `DecoderState.pushFrame(end, value)`. -/
def DecoderState.pushFrame (st : DecoderState) (endOffset : Nat) : DecoderState :=
  ⟨⟨some endOffset, .value, []⟩, st.currentFrame :: st.stack, st.start⟩

/-- `DecoderState.pushGroup(count, protocol, value)`: push `count` identical
markers onto the current frame's group stack. -/
def DecoderState.pushGroup (st : DecoderState) (count : Nat) (protocol : Option Protocol)
    (value : CesrValue) : DecoderState :=
  ⟨{ st.currentFrame with
      group := List.replicate count ⟨protocol, value⟩ ++ st.currentFrame.group },
    st.stack, st.start⟩

/-- `DecoderState.popGroup()`: remove and return the innermost marker;
`none` (JavaScript `null`) when the stack is empty. -/
def DecoderState.popGroup (st : DecoderState) : Option GroupMarker × DecoderState :=
  match st.currentFrame.group with
  | [] => (none, st)
  | g :: gs => (some g, ⟨{ st.currentFrame with group := gs }, st.stack, st.start⟩)

/-- `input.slice(state.start, state.end)` for one frame (`state.end` is the
current frame's end offset, `undefined` on the root frame). -/
def sliceAt (input : List Nat) (start : Nat) : Option Nat → List Nat
  | none => input.drop start
  | some e => (input.take e).drop start

/-- `CesrDecoder.nextSlice`: return the current frame's unconsumed span,
popping exhausted frames until a non-empty span or the root frame is
reached.  Returns the span together with the (possibly popped) frame
state. -/
def nextSliceAux (input : List Nat) (start : Nat) :
    Frame → List Frame → List Nat × Frame × List Frame
  | cur, stack =>
    let s := sliceAt input start cur.endOffset
    if s = [] then
      match stack with
      | [] => ([], cur, [])
      | f :: fs => nextSliceAux input start f fs
    else (s, cur, stack)

/-- The per-iteration state of the `CesrDecoder.values` generator: decoder
state plus the loop-local `serial` and `version` variables (initialized to
`'JSON'` and `''`). -/
structure LoopState where
  state : DecoderState
  serial : String
  version : String

def LoopState.init : LoopState := ⟨DecoderState.init, "JSON", ""⟩

/-- One iteration of hex.js `CesrDecoder.values` with the default mapping
hooks (each hook returns the decoded `CesrValue` unchanged): take the next
slice (popping exhausted frames), terminate with `none` on an empty root
span, pop a group, pick its protocol or the base protocol, run the frame's
extraction function, update the loop-local serial/version from a version
header, then classify: version header (JSON only), frame (push a new frame
over its body, advance by the header length only), group (push `count`
markers, under the group's context protocol if any), or leaf.  Returns the
yielded value and the successor state. -/
def valuesStep (tables : HardTables) (base : Protocol) (ls : LoopState) (input : List Nat) :
    Except Err (Option (CesrValue × LoopState)) :=
  let r := nextSliceAux input ls.state.start ls.state.currentFrame ls.state.stack
  let slice := r.1
  let frame := r.2.1
  let stack := r.2.2
  if slice = [] then .ok none
  else
    let popped : Option GroupMarker × Frame :=
      match frame.group with
      | [] => (none, frame)
      | g :: gs => (some g, { frame with group := gs })
    let group := popped.1
    let frame := popped.2
    let protocol := (group.bind (fun g => g.protocol)).getD base
    let frameValueE : Except Err CesrValue :=
      match frame.valueGetter with
      | .frame => getCesrFrame003 tables protocol (.bytes slice)
      | .value => getCesrValue003 protocol (.bytes slice)
    match frameValueE with
    | .error e => .error e
    | .ok frameValue =>
      let sv : String × String :=
        match frameValue.header with
        | .version vh => (vh.serial, vh.proto)
        | .derivation _ => (ls.serial, ls.version)
      let serial := sv.1
      let version := sv.2
      match frameValue.header with
      | .version vh =>
        -- `if (frameValue.header.serial)`: a version header's serial is a
        -- non-empty 4-character slice, hence truthy
        if vh.serial = Serials.json then
          let length := frameValue.value.length
          .ok (some (frameValue,
            ⟨⟨frame, stack, ls.state.start + length⟩, serial, version⟩))
        else .error (.genericError ("Unsupported serialization type: " ++ vh.serial))
      | .derivation dc =>
        if dc.selector = "" then
          -- an empty selector is falsy: `Unsupported header type`
          .error (.genericError "Unsupported header type")
        else
          let dc := { dc with serial := some serial, version := some version }
          let frameValue : CesrValue := ⟨.derivation dc, frameValue.value⟩
          if protocol.isFrame dc then
            let length := dc.value.length
            let newFrame : Frame := ⟨some (ls.state.start + frameValue.value.length), .value, []⟩
            .ok (some (frameValue,
              ⟨⟨newFrame, frame :: stack, ls.state.start + length⟩, serial, version⟩))
          else if protocol.isGroup dc then
            let p : Option Protocol :=
              if protocol.hasContext dc then protocol.getContext dc else none
            let frame := { frame with
              group := List.replicate (dc.count.getD 0) ⟨p, frameValue⟩ ++ frame.group }
            let length := frameValue.value.length
            .ok (some (frameValue,
              ⟨⟨frame, stack, ls.state.start + length⟩, serial, version⟩))
          else
            let length := frameValue.value.length
            .ok (some (frameValue,
              ⟨⟨frame, stack, ls.state.start + length⟩, serial, version⟩))

/-! ### Codec infrastructure lemmas -/

/-- Observer: the 6-bit values of a byte list (three bytes to four values,
standard Base64 final-chunk rule). -/
def bytesToVals : List Nat → List Nat
  | b0 :: b1 :: b2 :: rest =>
      b0 / 4 :: (b0 % 4 * 16 + b1 / 16) :: (b1 % 16 * 4 + b2 / 64) :: b2 % 64 ::
      bytesToVals rest
  | [b0, b1] => [b0 / 4, b0 % 4 * 16 + b1 / 16, b1 % 16 * 4]
  | [b0] => [b0 / 4, b0 % 4 * 16]
  | [] => []

/-- Observer: the number of `=` characters `btoa` appends for `n` input
bytes. -/
def padLen (n : Nat) : Nat := (3 - n % 3) % 3

theorem char_ofNat_toNat (c : Char) (h : c.toNat < 128) : Char.ofNat c.toNat = c := by
  have hv : c.toNat.isValidChar := Or.inl (by omega)
  unfold Char.ofNat
  rw [dif_pos hv]
  apply Char.ext
  simp only [Char.ofNatAux, Char.toNat]
  apply UInt32.ext
  rfl

theorem findIdx?_lt_length {α : Type} (p : α → Bool) (l : List α) (i : Nat)
    (h : l.findIdx? p = some i) : i < l.length := by
  have := List.findIdx?_eq_some_iff_findIdx_eq.mp h
  omega

theorem b64ValStd_lt (c : Char) (v : Nat) (h : b64ValStd c = some v) : v < 64 :=
  findIdx?_lt_length _ _ _ h

theorem b64Char_facts (v : Nat) (hv : v < 64) :
    isJsB64Ws (b64ChrStd v) = false ∧
    b64ValStd (b64ChrStd v) = some v ∧
    b64ChrStd v ≠ '=' ∧
    stdOf (urlOf (b64ChrStd v)) = b64ChrStd v ∧
    urlOf (b64ChrStd v) ≠ '=' ∧
    (urlOf (b64ChrStd v)).toNat < 128 ∧
    fromCharCode (urlOf (b64ChrStd v)).toNat = urlOf (b64ChrStd v) := by
  have h : ∀ w : Fin 64,
      isJsB64Ws (b64ChrStd w.val) = false ∧
      b64ValStd (b64ChrStd w.val) = some w.val ∧
      b64ChrStd w.val ≠ '=' ∧
      stdOf (urlOf (b64ChrStd w.val)) = b64ChrStd w.val ∧
      urlOf (b64ChrStd w.val) ≠ '=' ∧
      (urlOf (b64ChrStd w.val)).toNat < 128 ∧
      fromCharCode (urlOf (b64ChrStd w.val)).toNat = urlOf (b64ChrStd w.val) := by decide
  exact h ⟨v, hv⟩

theorem eqChar_facts :
    isJsB64Ws '=' = false ∧ stdOf '=' = '=' ∧ urlOf '=' = '=' ∧
    fromCharCode ('=').toNat = '=' ∧ ('=').toNat < 128 := by decide

theorem btoa_eq : ∀ b : List Nat,
    btoa b = (bytesToVals b).map b64ChrStd ++ List.replicate (padLen b.length) '='
  | [] => by simp [btoa, bytesToVals, padLen]
  | [b0] => by simp [btoa, bytesToVals, padLen, List.replicate]
  | [b0, b1] => by simp [btoa, bytesToVals, padLen, List.replicate]
  | b0 :: b1 :: b2 :: rest => by
      have ih := btoa_eq rest
      have hp : padLen rest.length = padLen (b0 :: b1 :: b2 :: rest).length := by
        simp only [List.length_cons, padLen]
        omega
      simp only [btoa, bytesToVals, List.map_cons, List.cons_append, ih, hp]

theorem bytesToVals_length : ∀ b : List Nat,
    (bytesToVals b).length = (4 * b.length + 2) / 3
  | [] => by simp [bytesToVals]
  | [b0] => by simp [bytesToVals]
  | [b0, b1] => by simp [bytesToVals]
  | b0 :: b1 :: b2 :: rest => by
      have ih := bytesToVals_length rest
      simp only [bytesToVals, List.length_cons, ih]
      omega

theorem bytesToVals_lt : ∀ b : List Nat, (∀ x ∈ b, x < 256) →
    ∀ v ∈ bytesToVals b, v < 64
  | [], _ => by simp [bytesToVals]
  | [b0], h => by
      have h0 := h b0 (by simp)
      intro v hv
      simp only [bytesToVals, List.mem_cons, List.not_mem_nil, or_false] at hv
      rcases hv with rfl | rfl <;> omega
  | [b0, b1], h => by
      have h0 := h b0 (by simp)
      have h1 := h b1 (by simp)
      intro v hv
      simp only [bytesToVals, List.mem_cons, List.not_mem_nil, or_false] at hv
      rcases hv with rfl | rfl | rfl <;> omega
  | b0 :: b1 :: b2 :: rest, h => by
      have h0 := h b0 (by simp)
      have h1 := h b1 (by simp)
      have h2 := h b2 (by simp)
      have ih := bytesToVals_lt rest (fun x hx => h x (by simp [hx]))
      intro v hv
      simp only [bytesToVals, List.mem_cons] at hv
      rcases hv with rfl | rfl | rfl | rfl | hv
      · omega
      · omega
      · omega
      · omega
      · exact ih v hv

theorem b64ValsToBytes_bytesToVals : ∀ b : List Nat, (∀ x ∈ b, x < 256) →
    b64ValsToBytes (bytesToVals b) = b
  | [], _ => rfl
  | [b0], h => by
      have h0 := h b0 (by simp)
      simp only [bytesToVals, b64ValsToBytes, List.cons.injEq, and_true]
      omega
  | [b0, b1], h => by
      have h0 := h b0 (by simp)
      have h1 := h b1 (by simp)
      simp only [bytesToVals, b64ValsToBytes, List.cons.injEq, and_true]
      omega
  | b0 :: b1 :: b2 :: rest, h => by
      have h0 := h b0 (by simp)
      have h1 := h b1 (by simp)
      have h2 := h b2 (by simp)
      have ih := b64ValsToBytes_bytesToVals rest (fun x hx => h x (by simp [hx]))
      simp only [bytesToVals, b64ValsToBytes, ih, List.cons.injEq, and_true]
      omega

theorem stripTrailingEq2_append (xs : List Char) (k : Nat) (hk : k ≤ 2)
    (hx : '=' ∉ xs) : stripTrailingEq2 (xs ++ List.replicate k '=') = xs := by
  have hmemrev : ∀ c, c ∈ xs.reverse → c ≠ '=' := by
    intro c hm hEq
    subst hEq
    exact hx (by simpa using hm)
  interval_cases k
  · unfold stripTrailingEq2
    simp only [List.replicate_zero, List.append_nil]
    cases h : xs.reverse with
    | nil => simp
    | cons c t =>
      have hc : c ≠ '=' := hmemrev c (by simp [h])
      cases t with
      | nil => simp [hc]
      | cons c2 t2 => simp [hc]
  · unfold stripTrailingEq2
    have hrev : (xs ++ List.replicate 1 '=').reverse = '=' :: xs.reverse := by
      simp [List.reverse_append]
    rw [hrev]
    cases h : xs.reverse with
    | nil =>
      have : xs = [] := by simpa using congrArg List.reverse h
      simp [this]
    | cons c t =>
      have hc : c ≠ '=' := hmemrev c (by simp [h])
      simp only [if_pos rfl, if_neg hc]
      rw [← h]
      simp
  · unfold stripTrailingEq2
    have hrev : (xs ++ List.replicate 2 '=').reverse = '=' :: '=' :: xs.reverse := by
      simp [List.reverse_append, List.replicate]
    rw [hrev]
    simp

theorem stripAllTrailingEq_append (xs : List Char) (k : Nat) (hx : '=' ∉ xs) :
    stripAllTrailingEq (xs ++ List.replicate k '=') = xs := by
  unfold stripAllTrailingEq
  have hrev : (xs ++ List.replicate k '=').reverse
      = List.replicate k '=' ++ xs.reverse := by
    simp [List.reverse_append, List.reverse_replicate]
  rw [hrev]
  have hdropRep : List.dropWhile (fun c => c = '=')
      (List.replicate k '=' ++ xs.reverse) = List.dropWhile (fun c => c = '=') xs.reverse := by
    induction k with
    | zero => simp
    | succ n ih => simp [List.replicate, List.dropWhile, ih]
  rw [hdropRep]
  cases h : xs.reverse with
  | nil =>
    have : xs = [] := by simpa using congrArg List.reverse h
    simp [this]
  | cons c t =>
    have hc : c ≠ '=' := by
      intro hEq
      subst hEq
      exact hx (by
        have : '=' ∈ xs.reverse := by simp [h]
        simpa using this)
    simp [List.dropWhile, hc, ← h]

theorem mem_stripTrailingEq2 (c : Char) (hc : c ≠ '=') (d : List Char)
    (hm : c ∈ d) : c ∈ stripTrailingEq2 d := by
  have hmr : c ∈ d.reverse := by simpa using hm
  unfold stripTrailingEq2
  cases h : d.reverse with
  | nil => rw [h] at hmr; simp at hmr
  | cons a t =>
    rw [h] at hmr
    rw [List.mem_cons] at hmr
    cases t with
    | nil =>
      by_cases ha : a = '='
      · subst ha
        rcases hmr with h1 | h1
        · exact absurd h1 hc
        · simp at h1
      · simp [ha, hm]
    | cons a2 t2 =>
      rw [List.mem_cons] at hmr
      by_cases ha : a = '='
      · subst ha
        by_cases ha2 : a2 = '='
        · subst ha2
          simp only [if_pos rfl]
          rcases hmr with h1 | h1 | h1
          · exact absurd h1 hc
          · exact absurd h1 hc
          · simpa using h1
        · simp only [if_pos rfl, if_neg ha2]
          rcases hmr with h1 | h1 | h1
          · exact absurd h1 hc
          · simp [h1]
          · simp [h1]
      · simp [ha, hm]

theorem b64Vals?_map (vs : List Nat) (h : ∀ v ∈ vs, v < 64) :
    b64Vals? (vs.map b64ChrStd) = some vs := by
  induction vs with
  | nil => rfl
  | cons v t ih =>
    have hv := (b64Char_facts v (h v (by simp))).2.1
    have iht := ih (fun x hx => h x (by simp [hx]))
    simp [b64Vals?, hv, iht]

theorem b64Vals?_mem_isSome (d : List Char) (vals : List Nat)
    (h : b64Vals? d = some vals) (c : Char) (hm : c ∈ d) :
    (b64ValStd c).isSome := by
  induction d generalizing vals with
  | nil => simp at hm
  | cons a t ih =>
    rcases List.mem_cons.1 hm with rfl | hm2
    · cases ha : b64ValStd c with
      | none => rw [b64Vals?, ha] at h; simp at h
      | some v => simp
    · cases ha : b64ValStd a with
      | none => rw [b64Vals?, ha] at h; simp at h
      | some v =>
        rw [b64Vals?, ha] at h
        cases ht : b64Vals? t with
        | none => rw [ht] at h; simp at h
        | some vt => exact ih vt ht hm2

theorem b64Vals?_mem_lt (d : List Char) (vals : List Nat)
    (h : b64Vals? d = some vals) (v : Nat) (hm : v ∈ vals) : v < 64 := by
  induction d generalizing vals with
  | nil =>
    rw [b64Vals?] at h
    cases h
    simp at hm
  | cons a t ih =>
    cases ha : b64ValStd a with
    | none => rw [b64Vals?, ha] at h; simp at h
    | some w =>
      rw [b64Vals?, ha] at h
      cases ht : b64Vals? t with
      | none => rw [ht] at h; simp at h
      | some vt =>
        rw [ht] at h
        cases h
        rcases List.mem_cons.1 hm with rfl | hm2
        · exact b64ValStd_lt a v ha
        · exact ih vt ht hm2

theorem atob_clean (vs : List Nat) (hv : ∀ v ∈ vs, v < 64) (k : Nat) (hk : k ≤ 2)
    (hlen : (vs.length + k) % 4 = 0) :
    atob (vs.map b64ChrStd ++ List.replicate k '=') = .ok (b64ValsToBytes vs) := by
  have hnoeq : '=' ∉ vs.map b64ChrStd := by
    intro hmem
    rcases List.mem_map.1 hmem with ⟨v, hv2, hEq⟩
    exact (b64Char_facts v (hv v hv2)).2.2.1 hEq
  have hfilter : (vs.map b64ChrStd ++ List.replicate k '=').filter
      (fun c => ¬ isJsB64Ws c) = vs.map b64ChrStd ++ List.replicate k '=' := by
    rw [List.filter_eq_self]
    intro a ha
    rcases List.mem_append.1 ha with h | h
    · rcases List.mem_map.1 h with ⟨v, hv2, rfl⟩
      simp [(b64Char_facts v (hv v hv2)).1]
    · have : a = '=' := List.eq_of_mem_replicate h
      subst this
      simp [eqChar_facts.1]
  have hlen2 : (vs.map b64ChrStd ++ List.replicate k '=').length % 4 = 0 := by
    simpa using hlen
  have hstrip : stripTrailingEq2 (vs.map b64ChrStd ++ List.replicate k '=')
      = vs.map b64ChrStd := stripTrailingEq2_append _ k hk hnoeq
  have hmod : (vs.map b64ChrStd).length % 4 ≠ 1 := by
    simp only [List.length_map]
    omega
  unfold atob
  simp only [hfilter]
  rw [if_pos hlen2, hstrip, if_neg hmod, b64Vals?_map vs hv]

theorem atob_btoa (b : List Nat) (hb : ∀ x ∈ b, x < 256) :
    atob (btoa b) = .ok b := by
  rw [btoa_eq]
  have h1 := atob_clean (bytesToVals b) (bytesToVals_lt b hb) (padLen b.length)
    (by unfold padLen; omega)
    (by
      rw [bytesToVals_length]
      unfold padLen
      have h := Nat.div_add_mod b.length 3
      have hr : b.length % 3 < 3 := Nat.mod_lt _ (by norm_num)
      interval_cases h0 : b.length % 3 <;> omega)
  rw [h1, b64ValsToBytes_bytesToVals b hb]

theorem utf8Encode_ascii (l : List Char) (h : ∀ c ∈ l, c.toNat < 128) :
    utf8Encode ⟨l⟩ = l.map Char.toNat := by
  induction l with
  | nil => rfl
  | cons c t ih =>
    have hc := h c (by simp)
    have iht := ih (fun x hx => h x (by simp [hx]))
    simp only [utf8Encode, List.foldr_cons, List.map_cons] at *
    rw [iht]
    simp [utf8EncodeChar, hc]

theorem fromCharCode_toNat (c : Char) (h : c.toNat < 128) :
    fromCharCode c.toNat = c :=
  char_ofNat_toNat c h

theorem map_fromCharCode_toNat (l : List Char) (h : ∀ c ∈ l, c.toNat < 128) :
    (l.map Char.toNat).map fromCharCode = l := by
  rw [List.map_map]
  induction l with
  | nil => rfl
  | cons c t ih =>
    have hc := h c (by simp)
    simp only [List.map_cons, Function.comp_apply, fromCharCode_toNat c hc,
      ih (fun x hx => h x (by simp [hx]))]

theorem encodeBase64Url_spec (b : List Nat) (hb : ∀ x ∈ b, x < 256) :
    encodeBase64Url b true
      = (bytesToVals b).map (fun v => urlOf (b64ChrStd v)) ∧
    encodeBase64Url b false
      = (bytesToVals b).map (fun v => urlOf (b64ChrStd v))
        ++ List.replicate (padLen b.length) '=' := by
  have hvals := bytesToVals_lt b hb
  have hmap : (btoa b).map urlOf
      = (bytesToVals b).map (fun v => urlOf (b64ChrStd v))
        ++ List.replicate (padLen b.length) '=' := by
    rw [btoa_eq, List.map_append, List.map_map]
    congr 1
    simp [List.map_replicate, eqChar_facts.2.2.1]
  have hnoeq : '=' ∉ (bytesToVals b).map (fun v => urlOf (b64ChrStd v)) := by
    intro hmem
    rcases List.mem_map.1 hmem with ⟨v, hv2, hEq⟩
    exact (b64Char_facts v (hvals v hv2)).2.2.2.2.1 hEq
  refine ⟨?_, ?_⟩
  · unfold encodeBase64Url
    simp only [if_pos rfl, hmap]
    exact stripAllTrailingEq_append _ _ hnoeq
  · unfold encodeBase64Url
    simpa using hmap

theorem comp_stdOf_urlOf : (stdOf ∘ fun v => urlOf (b64ChrStd v)) = b64ChrStd := by
  funext v
  by_cases hv : v < 64
  · exact (b64Char_facts v hv).2.2.2.1
  · have h64 : B64STD.length ≤ v := by
      have hL : B64STD.length = 64 := rfl
      omega
    simp only [Function.comp_apply, b64ChrStd]
    rw [List.getD_eq_default _ _ h64]
    decide

theorem decodeBase64Url_encode (b : List Nat) (hb : ∀ x ∈ b, x < 256)
    (strip : Bool) :
    decodeBase64Url (utf8Encode ⟨encodeBase64Url b strip⟩) = .ok b := by
  have hvals := bytesToVals_lt b hb
  have hspec := encodeBase64Url_spec b hb
  have hasciiMap : ∀ c ∈ (bytesToVals b).map (fun v => urlOf (b64ChrStd v)),
      c.toNat < 128 := by
    intro c hm
    rcases List.mem_map.1 hm with ⟨v, hv2, rfl⟩
    exact (b64Char_facts v (hvals v hv2)).2.2.2.2.2.1
  have hkle : padLen b.length ≤ 2 := by unfold padLen; omega
  have hsum : ((bytesToVals b).length + padLen b.length) % 4 = 0 := by
    rw [bytesToVals_length]
    unfold padLen
    have h := Nat.div_add_mod b.length 3
    have hr : b.length % 3 < 3 := Nat.mod_lt _ (by norm_num)
    interval_cases h0 : b.length % 3 <;> omega
  cases strip with
  | true =>
    rw [hspec.1]
    rw [utf8Encode_ascii _ hasciiMap]
    simp only [decodeBase64Url]
    rw [map_fromCharCode_toNat _ hasciiMap, List.map_map, comp_stdOf_urlOf]
    simp only [List.length_map]
    have hpads : (if (bytesToVals b).length % 4 > 0
        then 4 - (bytesToVals b).length % 4 else 0) = padLen b.length := by
      rw [bytesToVals_length]
      unfold padLen
      have h := Nat.div_add_mod b.length 3
      have hr : b.length % 3 < 3 := Nat.mod_lt _ (by norm_num)
      interval_cases h0 : b.length % 3 <;> (split <;> omega)
    rw [hpads, atob_clean (bytesToVals b) hvals (padLen b.length) hkle hsum,
      b64ValsToBytes_bytesToVals b hb]
  | false =>
    have hascii2 : ∀ c ∈ (bytesToVals b).map (fun v => urlOf (b64ChrStd v))
        ++ List.replicate (padLen b.length) '=', c.toNat < 128 := by
      intro c hm
      rcases List.mem_append.1 hm with h | h
      · exact hasciiMap c h
      · have : c = '=' := List.eq_of_mem_replicate h
        subst this
        exact eqChar_facts.2.2.2.2
    rw [hspec.2]
    rw [utf8Encode_ascii _ hascii2]
    simp only [decodeBase64Url]
    rw [map_fromCharCode_toNat _ hascii2, List.map_append, List.map_map,
      comp_stdOf_urlOf, List.map_replicate, eqChar_facts.2.1]
    have hlen0 : ((bytesToVals b).map b64ChrStd
        ++ List.replicate (padLen b.length) '=').length % 4 = 0 := by
      simp only [List.length_append, List.length_map, List.length_replicate]
      exact hsum
    rw [hlen0]
    simp only [gt_iff_lt, lt_self_iff_false, if_false, List.replicate_zero,
      List.append_nil]
    rw [atob_clean (bytesToVals b) hvals (padLen b.length) hkle hsum,
      b64ValsToBytes_bytesToVals b hb]

theorem decode_bad_char (a : List Nat) (x : Nat) (hx : x ∈ a)
    (hws : isJsB64Ws (stdOf (fromCharCode x)) = false)
    (heq : stdOf (fromCharCode x) ≠ '=')
    (hval : b64ValStd (stdOf (fromCharCode x)) = none) :
    decodeBase64Url a = .error .invalidCharacter := by
  have hmem0 : stdOf (fromCharCode x) ∈ (a.map fromCharCode).map stdOf :=
    List.mem_map_of_mem _ (List.mem_map_of_mem _ hx)
  simp only [decodeBase64Url]
  generalize hS : (a.map fromCharCode).map stdOf = s at hmem0 ⊢
  have hmem1 : stdOf (fromCharCode x) ∈ s ++ List.replicate
      (if s.length % 4 > 0 then 4 - s.length % 4 else 0) '=' :=
    List.mem_append_left _ hmem0
  generalize hP : s ++ List.replicate
      (if s.length % 4 > 0 then 4 - s.length % 4 else 0) '=' = padded at hmem1 ⊢
  simp only [atob]
  have hmem2 : stdOf (fromCharCode x) ∈ padded.filter (fun c => ¬ isJsB64Ws c) :=
    List.mem_filter.2 ⟨hmem1, by simp [hws]⟩
  generalize hD : padded.filter (fun c => ¬ isJsB64Ws c) = d1 at hmem2 ⊢
  have hmem3 : stdOf (fromCharCode x)
      ∈ (if d1.length % 4 = 0 then stripTrailingEq2 d1 else d1) := by
    split
    · exact mem_stripTrailingEq2 _ heq _ hmem2
    · exact hmem2
  generalize hD2 : (if d1.length % 4 = 0 then stripTrailingEq2 d1 else d1) = d2 at hmem3 ⊢
  by_cases hl : d2.length % 4 = 1
  · simp [hl]
  · cases hv : b64Vals? d2 with
    | some vals =>
      have := b64Vals?_mem_isSome d2 vals hv _ hmem3
      rw [hval] at this
      simp at this
    | none => simp [hl, hv]

/-! ### Claim theorems -/

/-- A trivial protocol instance used by witnesses that never reach the code
tables. -/
def trivProtocol : Protocol :=
  .mk "Triv" (fun _ => 1) (fun s => .error (.unknownCode "Triv.getCodeTable" s))
    (fun _ => false) (fun _ => false) (fun _ => false) (fun _ => none)

/-- Trivial hard-size tables used by witnesses that never consult them. -/
def trivTables : HardTables :=
  ⟨fun _ => none, fun _ => none⟩

/-- C8 counterexample: the byte 0x20 (space) is outside the URL-safe Base64
alphabet, yet `decodeBase64Url` on `"AA A"` succeeds (forgiving-base64 strips
ASCII whitespace), refuting "decoding an out-of-alphabet character fails with
InvalidCharacter" as universally stated. -/
theorem claim_C8_counterexample :
    (32 : Nat) ∈ [65, 65, 32, 65] ∧
    b64ValueOf (fromCharCode 32) = .error .invalidCharacter ∧
    decodeBase64Url [65, 65, 32, 65] = .ok [0, 0] :=
  ⟨by decide, rfl, rfl⟩

/-- C8 (amended): `encodeBase64Url` and `decodeBase64Url` are mutual inverses
on every byte sequence, with or without padding stripped (decoding first pads
its input to a 4-character boundary); and decoding fails with
InvalidCharacter on any character the forgiving-Base64 decoder does not
accept — i.e. anything that is not ASCII whitespace, not `=`, and not in the
standard alphabet after the `-`/`_` replacement (ASCII whitespace is
stripped, and `+`/`/` are accepted, rather than rejected). -/
theorem claim_C8_roundtrip :
    (∀ (b : List Nat), (∀ x ∈ b, x < 256) → ∀ strip : Bool,
      decodeBase64Url (utf8Encode ⟨encodeBase64Url b strip⟩) = .ok b) ∧
    (∀ (a : List Nat) (x : Nat), x ∈ a →
      isJsB64Ws (stdOf (fromCharCode x)) = false →
      stdOf (fromCharCode x) ≠ '=' →
      b64ValStd (stdOf (fromCharCode x)) = none →
      decodeBase64Url a = .error .invalidCharacter) :=
  ⟨fun b hb strip => decodeBase64Url_encode b hb strip,
   fun a x hx hws heq hval => decode_bad_char a x hx hws heq hval⟩

/-- C8 witness: the round trip and the failure clause at concrete inputs. -/
theorem claim_C8_roundtrip_witness :
    decodeBase64Url (utf8Encode ⟨encodeBase64Url [0, 255, 7] true⟩) = .ok [0, 255, 7] ∧
    decodeBase64Url (utf8Encode ⟨encodeBase64Url [0, 255, 7] false⟩) = .ok [0, 255, 7] ∧
    decodeBase64Url [36, 65] = .error .invalidCharacter := by
  refine ⟨claim_C8_roundtrip.1 [0, 255, 7] (by decide) true,
    claim_C8_roundtrip.1 [0, 255, 7] (by decide) false,
    claim_C8_roundtrip.2 [36, 65] 36 (by decide) (by decide) (by decide) (by decide)⟩

/-- C10: the older parser module (part_002) and the newer one (part_003)
agree exactly — `getCesrValue` of both returns the same header and value (or
the same error) on every protocol and every string/byte input, and their
`getJsonFrame`s agree on every byte input. -/
theorem claim_C10_equivalence :
    (∀ (protocol : Protocol) (input : CesrInput),
      getCesrValue002 protocol input = getCesrValue003 protocol input) ∧
    (∀ input : List Nat, getJsonFrame002 input = getJsonFrame003 input) :=
  ⟨fun _ _ => rfl, fun _ => rfl⟩

/-- C10 witness: agreement evaluated at a concrete protocol and inputs. -/
theorem claim_C10_equivalence_witness :
    getCesrValue002 trivProtocol (.bytes [65, 66]) =
      getCesrValue003 trivProtocol (.bytes [65, 66]) ∧
    getJsonFrame002 [1, 2, 3] = getJsonFrame003 [1, 2, 3] :=
  ⟨claim_C10_equivalence.1 trivProtocol (.bytes [65, 66]),
   claim_C10_equivalence.2 [1, 2, 3]⟩

/-- C7: evaluation of the source-faithful `Hex.decode` at the claim's
scenario inputs.  The first two conjuncts agree with the claim ("0f" decodes
to 0x0f, odd-length "abc" fails); the last two exhibit the code bug: "0g"
returns byte 0x00 instead of failing with InvalidCharacter (parseInt stops at
the invalid digit), and "0f0f" returns [0x0f, 0x00] instead of [0x0f, 0x0f]
(the fixed `substring(i, 2)` end index).  `Hex.encode` itself is two
lowercase digits per byte, as the claim states. -/
theorem claim_C7_hex :
    hexDecodeJS "0f" = .ok [15] ∧
    hexDecodeJS "abc" = .error .invalidLength ∧
    hexDecodeJS "0g" = .ok [0] ∧
    hexDecodeJS "0f0f" = .ok [15, 0] ∧
    hexEncode [15, 15] = "0f0f" ∧
    hexToInt "0f" = .ok 15 ∧ hexValueOf 'g' = .error .invalidCharacter :=
  ⟨rfl, rfl, rfl, rfl, rfl, rfl, rfl⟩

/-- The 24 bytes of the version-string prefix
`{"v":"KERI10JSON0000fc_"` (declaring 252 bytes via hex digits 0000fc). -/
def jsonPfx : List Nat := utf8Encode "\x7b\"v\":\"KERI10JSON0000fc_\""

/-- C5: the declared size (252) exceeds the available input (24 bytes), yet
`getJsonFrame` returns a (truncated) value: the source constructs
`new UnknownCodeError(...)` on the size check but never throws it, so no
Shortage — nor any other failure — occurs. -/
theorem claim_C5_json_shortage_bug :
    jsonPfx.length = 24 ∧ 252 > 24 ∧
    getJsonFrame003 jsonPfx =
      .ok ⟨.version ⟨"KERI10JSON0000fc", "JSON", "KERI10", "0000fc", 252⟩, jsonPfx⟩ :=
  ⟨rfl, by norm_num, rfl⟩

/-- C6: for every input whose first byte's top three bits are neither 1
(CESR text start) nor 3 (JSON start) — i.e. tritets 0, 2, 4, 5, 6, 7,
including the MessagePack tritet 4 — the frame sniffer fails with the
unsupported-cold-start error (realized in the source as
`UnknownCodeError('getCesrFrame', input[0])`), and one stream-decoder step on
such an input propagates that failure without producing a value or advancing
any state. -/
theorem claim_C6_cold_start (tables : HardTables) (protocol : Protocol)
    (b : Nat) (rest : List Nat) (_hb : b < 256)
    (h1 : b / 32 ≠ 1) (h3 : b / 32 ≠ 3) :
    getCesrFrame003 tables protocol (.bytes (b :: rest))
      = .error (.unknownCode "getCesrFrame" (toString b)) ∧
    valuesStep tables protocol .init (b :: rest)
      = .error (.unknownCode "getCesrFrame" (toString b)) := by
  have hframe : getCesrFrame003 tables protocol (.bytes (b :: rest))
      = .error (.unknownCode "getCesrFrame" (toString b)) := by
    unfold getCesrFrame003
    simp [h1, h3]
  refine ⟨hframe, ?_⟩
  have hne : b :: rest ≠ [] := List.cons_ne_nil _ _
  have hstep1 : nextSliceAux (b :: rest) 0 ⟨none, .frame, []⟩ []
      = (b :: rest, ⟨none, .frame, []⟩, []) := by
    unfold nextSliceAux
    simp [sliceAt]
  simp only [valuesStep, LoopState.init, DecoderState.init, hstep1, if_neg hne,
    Option.none_bind, Option.getD_none, hframe]

/-- C6 witness: a MessagePack-class first byte (0x8C, tritet 4). -/
theorem claim_C6_cold_start_witness :
    getCesrFrame003 trivTables trivProtocol (.bytes [140])
      = .error (.unknownCode "getCesrFrame" (toString (140 : Nat))) ∧
    valuesStep trivTables trivProtocol .init [140]
      = .error (.unknownCode "getCesrFrame" (toString (140 : Nat))) :=
  claim_C6_cold_start trivTables trivProtocol 140 [] (by norm_num)
    (by norm_num) (by norm_num)

theorem getJsonFrame003_pfx (rest : List Nat) :
    getJsonFrame003 (jsonPfx ++ rest) =
      .ok ⟨.version ⟨"KERI10JSON0000fc", "JSON", "KERI10", "0000fc", 252⟩,
        (jsonPfx ++ rest).take 252⟩ := by
  have h24 : (jsonPfx ++ rest).take 24 = jsonPfx := by
    have hl : jsonPfx.length = 24 := rfl
    rw [← hl, List.take_left]
  simp only [getJsonFrame003]
  rw [h24]
  rfl

/-- C2 counterexample: the 24-byte input consisting solely of the version
prefix declares 252 bytes, yet the first decoded value consumes only 24
bytes (the value is truncated to the available input), so "consumed length
252" fails for an input shorter than its declared size. -/
theorem claim_C2_counterexample :
    jsonPfx.length = 24 ∧ (24 : Nat) ≠ 252 ∧
    valuesStep trivTables trivProtocol .init jsonPfx =
      .ok (some (⟨.version ⟨"KERI10JSON0000fc", "JSON", "KERI10", "0000fc", 252⟩,
        jsonPfx⟩,
        ⟨⟨⟨none, .frame, []⟩, [], 24⟩, "JSON", "KERI10"⟩)) :=
  ⟨rfl, by norm_num, rfl⟩

/-- C2 (amended): on every input that begins with the version-string prefix
`{"v":"KERI10JSON0000fc_"` (first tritet 011) and carries at least the 252
declared bytes, the first value produced by the stream decoder is a version
header with protocol "KERI10", serialization kind "JSON", and consumed
length 252. -/
theorem claim_C2_json_header (tables : HardTables) (protocol : Protocol)
    (input rest : List Nat) (hin : input = jsonPfx ++ rest)
    (hlen : 252 ≤ input.length) :
    valuesStep tables protocol .init input =
      .ok (some (⟨.version ⟨"KERI10JSON0000fc", "JSON", "KERI10", "0000fc", 252⟩,
        input.take 252⟩,
        ⟨⟨⟨none, .frame, []⟩, [], 252⟩, "JSON", "KERI10"⟩)) ∧
    (input.take 252).length = 252 := by
  subst hin
  have htake : ((jsonPfx ++ rest).take 252).length = 252 := by
    simp only [List.length_take]
    omega
  refine ⟨?_, htake⟩
  have hne : jsonPfx ++ rest ≠ [] := by
    rw [show jsonPfx ++ rest = 123 :: (jsonPfx.tail ++ rest) from rfl]
    exact List.cons_ne_nil _ _
  have hframe : getCesrFrame003 tables protocol (.bytes (jsonPfx ++ rest))
      = .ok ⟨.version ⟨"KERI10JSON0000fc", "JSON", "KERI10", "0000fc", 252⟩,
        (jsonPfx ++ rest).take 252⟩ := by
    unfold getCesrFrame003
    have hhead : (jsonPfx ++ rest).headD 0 = 123 := rfl
    simp only [hhead]
    norm_num
    exact getJsonFrame003_pfx rest
  have hstep1 : nextSliceAux (jsonPfx ++ rest) 0 ⟨none, .frame, []⟩ []
      = (jsonPfx ++ rest, ⟨none, .frame, []⟩, []) := by
    unfold nextSliceAux
    simp [sliceAt, hne]
  simp only [valuesStep, LoopState.init, DecoderState.init, hstep1, if_neg hne,
    Option.none_bind, Option.getD_none, hframe]
  simp [Serials.json, htake]

/-- C2 witness: the amended header property at a 252-byte concrete input
(the version prefix followed by 228 filler bytes). -/
theorem claim_C2_json_header_witness :
    valuesStep trivTables trivProtocol .init (jsonPfx ++ List.replicate 228 48) =
      .ok (some (⟨.version ⟨"KERI10JSON0000fc", "JSON", "KERI10", "0000fc", 252⟩,
        (jsonPfx ++ List.replicate 228 48).take 252⟩,
        ⟨⟨⟨none, .frame, []⟩, [], 252⟩, "JSON", "KERI10"⟩)) ∧
    ((jsonPfx ++ List.replicate 228 48).take 252).length = 252 :=
  claim_C2_json_header trivTables trivProtocol (jsonPfx ++ List.replicate 228 48)
    (List.replicate 228 48) rfl
    (by rw [List.length_append, List.length_replicate,
          show jsonPfx.length = 24 from rfl])

/-- C9: group stack discipline.  (1) `pushGroup count p v` pushes exactly
`count` identical markers onto the active frame's group stack (stack and
cursor unchanged); (2) `popGroup` returns `none` on an empty stack and
removes and returns the innermost marker otherwise; (3) one stream-decoder
step that decodes a derivation code with `isGroup = true` and `count = n` on
a frame with an empty group stack leaves exactly `n` identical markers
there; (4) one step that decodes a leaf value consumes exactly one pending
marker; (5) hence after three markers are pushed, three pops return markers
and the fourth `popGroup` returns `none`. -/
theorem claim_C9_group_stack :
    (∀ (st : DecoderState) (n : Nat) (p : Option Protocol) (v : CesrValue),
      (st.pushGroup n p v).currentFrame.group
          = List.replicate n ⟨p, v⟩ ++ st.currentFrame.group ∧
      (st.pushGroup n p v).stack = st.stack ∧
      (st.pushGroup n p v).start = st.start) ∧
    (∀ st : DecoderState, st.currentFrame.group = [] →
      st.popGroup.1 = none ∧ st.popGroup.2 = st) ∧
    (∀ (st : DecoderState) (g : GroupMarker) (gs : List GroupMarker),
      st.currentFrame.group = g :: gs →
      st.popGroup.1 = some g ∧ st.popGroup.2.currentFrame.group = gs) ∧
    (∀ (tables : HardTables) (P : Protocol) (sr vr : String) (e : Option Nat)
        (stk : List Frame) (s0 : Nat) (input : List Nat) (cv : CesrValue)
        (dc : DerivationCode) (n : Nat),
      sliceAt input s0 e ≠ [] →
      getCesrValue003 P (.bytes (sliceAt input s0 e)) = .ok cv →
      cv.header = .derivation dc →
      dc.selector ≠ "" →
      P.isFrame { dc with serial := some sr, version := some vr } = false →
      P.isGroup { dc with serial := some sr, version := some vr } = true →
      P.hasContext { dc with serial := some sr, version := some vr } = false →
      dc.count = some n →
      valuesStep tables P ⟨⟨⟨e, .value, []⟩, stk, s0⟩, sr, vr⟩ input =
        .ok (some (⟨.derivation { dc with serial := some sr, version := some vr },
          cv.value⟩,
          ⟨⟨⟨e, .value, List.replicate n
              ⟨none, ⟨.derivation { dc with serial := some sr, version := some vr },
                cv.value⟩⟩⟩, stk, s0 + cv.value.length⟩, sr, vr⟩))) ∧
    (∀ (tables : HardTables) (P : Protocol) (sr vr : String) (e : Option Nat)
        (stk : List Frame) (s0 : Nat) (g : GroupMarker) (gs : List GroupMarker)
        (input : List Nat) (cv : CesrValue) (dc : DerivationCode),
      sliceAt input s0 e ≠ [] →
      getCesrValue003 (g.protocol.getD P) (.bytes (sliceAt input s0 e)) = .ok cv →
      cv.header = .derivation dc →
      dc.selector ≠ "" →
      (g.protocol.getD P).isFrame { dc with serial := some sr, version := some vr }
        = false →
      (g.protocol.getD P).isGroup { dc with serial := some sr, version := some vr }
        = false →
      valuesStep tables P ⟨⟨⟨e, .value, g :: gs⟩, stk, s0⟩, sr, vr⟩ input =
        .ok (some (⟨.derivation { dc with serial := some sr, version := some vr },
          cv.value⟩,
          ⟨⟨⟨e, .value, gs⟩, stk, s0 + cv.value.length⟩, sr, vr⟩))) ∧
    (∀ (st : DecoderState) (m : GroupMarker),
      st.currentFrame.group = List.replicate 3 m →
      st.popGroup.1 = some m ∧
      st.popGroup.2.popGroup.1 = some m ∧
      st.popGroup.2.popGroup.2.popGroup.1 = some m ∧
      st.popGroup.2.popGroup.2.popGroup.2.popGroup.1 = none) := by
  refine ⟨?_, ?_, ?_, ?_, ?_, ?_⟩
  · intro st n p v
    exact ⟨rfl, rfl, rfl⟩
  · intro st h
    unfold DecoderState.popGroup
    rw [h]
    exact ⟨rfl, rfl⟩
  · intro st g gs h
    unfold DecoderState.popGroup
    rw [h]
    exact ⟨rfl, rfl⟩
  · intro tables P sr vr e stk s0 input cv dc n hs hv hh hsel hfr hgr hctx hcount
    have hstep1 : nextSliceAux input s0 ⟨e, .value, []⟩ stk
        = (sliceAt input s0 e, ⟨e, .value, []⟩, stk) := by
      unfold nextSliceAux
      simp [hs]
    simp only [valuesStep, hstep1, if_neg hs, Option.none_bind, Option.getD_none,
      hv, hh, if_neg hsel, hfr, hgr, hctx, Bool.false_eq_true,
      if_false, if_true]
    simp [hcount]
  · intro tables P sr vr e stk s0 g gs input cv dc hs hv hh hsel hfr hgr
    have hstep1 : nextSliceAux input s0 ⟨e, .value, g :: gs⟩ stk
        = (sliceAt input s0 e, ⟨e, .value, g :: gs⟩, stk) := by
      unfold nextSliceAux
      simp [hs]
    simp only [valuesStep, hstep1, if_neg hs, Option.some_bind,
      hv, hh, if_neg hsel, hfr, hgr, Bool.false_eq_true, if_false]
  · intro st m h
    unfold DecoderState.popGroup
    rw [h]
    simp [List.replicate]

/-- Concrete code table for the C9 witness: one-character selector, header
with `count = 3`, total length 4. -/
def groupTable : CodeTable where
  codeSize := 1
  mapCodeHeader := fun s => .ok
    { value := s, selector := s, type := s, digits := none, typeName := none,
      leadBytes := none, size := none, count := some 3, quadlets := none,
      version := none, index := none, ondex := none, serial := none }
  getTotalLength := fun _ => .ok 4
  sizes := none

/-- Concrete protocol for the C9 witness: every header is a group. -/
def groupProtocol : Protocol :=
  .mk "Grp" (fun _ => 1) (fun _ => .ok groupTable)
    (fun _ => false) (fun _ => true) (fun _ => false) (fun _ => none)

/-- The derivation code produced by `groupTable` for selector "A". -/
def groupDC : DerivationCode :=
  { value := "A", selector := "A", type := "A", digits := none,
    typeName := none, leadBytes := none, size := none, count := some 3,
    quadlets := none, version := none, index := none, ondex := none,
    serial := none }

/-- C9 witness: a group header with count 3 on the 4-byte input "AAAA"
pushes exactly three identical markers onto the active frame. -/
theorem claim_C9_group_stack_witness :
    valuesStep trivTables groupProtocol
        ⟨⟨⟨some 4, .value, []⟩, [⟨none, .frame, []⟩], 0⟩, "JSON", ""⟩ [65, 65, 65, 65] =
      .ok (some (⟨.derivation { groupDC with serial := some "JSON", version := some "" },
        [65, 65, 65, 65]⟩,
        ⟨⟨⟨some 4, .value, List.replicate 3
            ⟨none, ⟨.derivation { groupDC with serial := some "JSON", version := some "" },
              [65, 65, 65, 65]⟩⟩⟩,
          [⟨none, .frame, []⟩], 4⟩, "JSON", ""⟩)) := by
  have h := claim_C9_group_stack.2.2.2.1 trivTables groupProtocol "JSON" ""
    (some 4) [⟨none, .frame, []⟩] 0 [65, 65, 65, 65]
    ⟨.derivation groupDC, [65, 65, 65, 65]⟩ groupDC 3
    (by decide) rfl rfl (by decide) rfl rfl rfl rfl
  exact h

/-- Hard-size table for the C3 counterexample: `'4'` begins a two-character
matter code (as in the CESR master table). -/
def varTables : HardTables :=
  ⟨fun s => if s = "4" then some 2 else none, fun _ => none⟩

/-- Code table of the variable-size code "4A": hs 2, ss 2, no fixed size,
no lead bytes. -/
def varTable : CodeTable where
  codeSize := 4
  mapCodeHeader := fun s => .error (.unknownCode "varTable.mapCodeHeader" s)
  getTotalLength := fun c => .error (.unknownCode "varTable.getTotalLength" c.value)
  sizes := some ⟨2, 2, none, 0⟩

/-- Protocol carrying the single variable-size code "4A". -/
def varProtocol : Protocol :=
  .mk "Var" (fun _ => 8)
    (fun s => if s = "4A" then .ok varTable else .error (.unknownCode "Var.getCodeTable" s))
    (fun _ => false) (fun _ => false) (fun _ => false) (fun _ => none)

/-- C3 counterexample: the valid 8-byte primitive "4AABAAAA" (variable-size
code "4A", soft digits "AB" declaring one quadlet) decodes fully, but
truncating it to 3 bytes — inside the soft-size digits — yields Shortage
with need 1, computed from the truncated digits, not the exact missing byte
count 8 - 3 = 5. -/
theorem claim_C3_counterexample :
    fromMatterQB64b varTables (.bytes (utf8Encode "4AABAAAA")) varProtocol
      = .ok ("4A", 8, [0, 0, 0]) ∧
    fromMatterQB64b varTables (.bytes ((utf8Encode "4AABAAAA").take 3)) varProtocol
      = .error (.shortage (some 1)) ∧
    (8 : Nat) - 3 ≠ 1 :=
  ⟨rfl, rfl, by norm_num⟩

/-- C3 (amended): `fromMatterQB64b` fails with Shortage whose need is the
exact missing count relative to the sizes it computes from the available
bytes: (i) below the hard size, need = hardSize - available; (ii) for a
fixed-size code, need = fs - available; (iii) for a variable-size code the
full size is computed from the (possibly truncated) soft digits and need is
relative to that value; (iv) consequently, truncating a valid stream before
a fixed-size primitive's declared end at any nonempty boundary yields
Shortage with need hardSize - k below the hard size and fs - k otherwise.
(Truncating a variable-size primitive inside its soft digits can report a
smaller need — see the counterexample — and truncating to zero bytes yields
the Shortage without a need count.) -/
theorem claim_C3_shortage :
    (∀ (tables : HardTables) (P : Protocol) (q : List Nat) (hsz : Nat),
      q ≠ [] →
      tables.matterHards (utf8Decode (q.take 1)) = some hsz →
      q.length < hsz →
      fromMatterQB64b tables (.bytes q) P
        = .error (.shortage (some (hsz - q.length)))) ∧
    (∀ (tables : HardTables) (P : Protocol) (q : List Nat)
        (hsz : Nat) (Tc : CodeTable) (hs ss f ls : Nat),
      q ≠ [] →
      tables.matterHards (utf8Decode (q.take 1)) = some hsz →
      hsz ≤ q.length →
      P.getCodeTable (utf8Decode (q.take hsz)) = .ok Tc →
      Tc.sizes = some ⟨hs, ss, some f, ls⟩ →
      q.length < f →
      fromMatterQB64b tables (.bytes q) P
        = .error (.shortage (some (f - q.length)))) ∧
    (∀ (tables : HardTables) (P : Protocol) (q : List Nat)
        (hsz : Nat) (Tc : CodeTable) (hs ss ls sz : Nat),
      q ≠ [] →
      tables.matterHards (utf8Decode (q.take 1)) = some hsz →
      hsz ≤ q.length →
      P.getCodeTable (utf8Decode (q.take hsz)) = .ok Tc →
      Tc.sizes = some ⟨hs, ss, none, ls⟩ →
      (hs + ss) % 4 = 0 →
      b64ToInt (utf8Decode ((q.take (hs + ss)).drop hs)) = .ok sz →
      q.length < sz * 4 + (hs + ss) →
      fromMatterQB64b tables (.bytes q) P
        = .error (.shortage (some (sz * 4 + (hs + ss) - q.length)))) ∧
    (∀ (tables : HardTables) (P : Protocol) (q : List Nat)
        (hsz : Nat) (Tc : CodeTable) (hs ss f ls k : Nat),
      tables.matterHards (utf8Decode (q.take 1)) = some hsz →
      P.getCodeTable (utf8Decode (q.take hsz)) = .ok Tc →
      Tc.sizes = some ⟨hs, ss, some f, ls⟩ →
      f ≤ q.length →
      1 ≤ k → k < f →
      fromMatterQB64b tables (.bytes (q.take k)) P
        = .error (.shortage (some (if k < hsz then hsz - k else f - k)))) := by
  refine ⟨?_, ?_, ?_, ?_⟩
  · intro tables P q hsz hq hhard hlt
    have hlen0 : ¬ q.length = 0 := by
      intro h
      exact hq (List.length_eq_zero.mp h)
    unfold fromMatterQB64b
    simp only [hlen0, if_false, hhard, if_pos hlt]
  · intro tables P q hsz Tc hs ss f ls hq hhard hge htab hsz2 hlt
    have hlen0 : ¬ q.length = 0 := by
      intro h
      exact hq (List.length_eq_zero.mp h)
    have hnlt : ¬ q.length < hsz := by omega
    unfold fromMatterQB64b
    simp only [hlen0, if_false, hhard, if_neg hnlt, htab, hsz2, if_pos hlt]
  · intro tables P q hsz Tc hs ss ls sz hq hhard hge htab hsz2 hcs hsoft hlt
    have hlen0 : ¬ q.length = 0 := by
      intro h
      exact hq (List.length_eq_zero.mp h)
    have hnlt : ¬ q.length < hsz := by omega
    have hcs2 : ¬ (hs + ss) % 4 ≠ 0 := by omega
    unfold fromMatterQB64b
    simp only [hlen0, if_false, hhard, if_neg hnlt, htab, hsz2, if_neg hcs2,
      hsoft, if_pos hlt]
  · intro tables P q hsz Tc hs ss f ls k hhard htab hsz2 hcov h1 hkf
    have hq : q ≠ [] := by
      intro h
      subst h
      simp at hcov
      omega
    have hlenq : 1 ≤ q.length := by
      cases q with
      | nil => exact absurd rfl hq
      | cons a t => simp
    have hlen0 : ¬ (q.take k).length = 0 := by
      simp only [List.length_take]
      omega
    have htake1 : (q.take k).take 1 = q.take 1 := by
      rw [List.take_take]
      congr 1
      omega
    have hlenk : (q.take k).length = k := by
      simp only [List.length_take]
      omega
    have hk0 : ¬ k = 0 := by omega
    by_cases hkh : k < hsz
    · unfold fromMatterQB64b
      simp only [hlen0, if_false, htake1, hhard, hlenk, if_pos hkh, if_pos hkh]
      rw [if_neg hk0]
    · have htakeh : (q.take k).take hsz = q.take hsz := by
        rw [List.take_take]
        congr 1
        omega
      have hnlt : ¬ (q.take k).length < hsz := by omega
      have hflt : (q.take k).length < f := by omega
      unfold fromMatterQB64b
      simp only [hlen0, if_false, htake1, hhard, if_neg hnlt, htakeh, htab,
        hsz2, if_pos hflt, hlenk, if_neg hkh]
      rw [if_neg hk0, if_pos hkf]

/-- C3 witness: the three shortage shapes and the fixed-size truncation
consequence at concrete inputs. -/
theorem claim_C3_shortage_witness :
    fromMatterQB64b varTables (.bytes [52]) varProtocol
      = .error (.shortage (some 1)) ∧
    fromMatterQB64b varTables (.bytes ((utf8Encode "4AAB").take 3)) varProtocol
      = .error (.shortage (some 1)) := by
  constructor
  · exact claim_C3_shortage.1 varTables varProtocol [52] 2 (by decide)
      rfl (by decide)
  · exact claim_C3_shortage.2.2.1 varTables varProtocol
      ((utf8Encode "4AAB").take 3) 2 varTable 2 2 0 0 (by decide) rfl
      (by decide) rfl rfl (by decide) rfl (by decide)

theorem stripTrailingEq2_spec (s : List Char) :
    stripTrailingEq2 s = s ∨
    (∃ s', s = s' ++ ['='] ∧ stripTrailingEq2 s = s') ∨
    (∃ s', s = s' ++ ['=', '='] ∧ stripTrailingEq2 s = s') := by
  unfold stripTrailingEq2
  cases hu : s.reverse with
  | nil => left; rfl
  | cons c1 t =>
    cases t with
    | nil =>
      by_cases hc1 : c1 = '='
      · right; left
        refine ⟨[], ?_, ?_⟩
        · subst hc1
          have := congrArg List.reverse hu
          simpa using this
        · simp [hc1]
      · left; simp [hc1]
    | cons c2 t2 =>
      by_cases hc1 : c1 = '='
      · by_cases hc2 : c2 = '='
        · right; right
          refine ⟨t2.reverse, ?_, ?_⟩
          · subst hc1; subst hc2
            have := congrArg List.reverse hu
            simpa using this
          · simp [hc1, hc2]
        · right; left
          refine ⟨(c2 :: t2).reverse, ?_, ?_⟩
          · subst hc1
            have := congrArg List.reverse hu
            simpa using this
          · simp [hc1, hc2]
      · left; simp [hc1]

theorem stripTrailingEq2_prefix (v u : List Char) (hv : '=' ∉ v) :
    ∃ u', stripTrailingEq2 (v ++ u) = v ++ u' := by
  rcases stripTrailingEq2_spec (v ++ u) with h | ⟨s', hs, h⟩ | ⟨s', hs, h⟩
  · exact ⟨u, h⟩
  · have hrev : u.reverse ++ v.reverse = '=' :: s'.reverse := by
      have := congrArg List.reverse hs
      simpa using this
    cases hur : u.reverse with
    | nil =>
      rw [hur, List.nil_append] at hrev
      exact absurd (by
        have hm : '=' ∈ v.reverse := by rw [hrev]; simp
        simpa using hm) hv
    | cons x w =>
      rw [hur, List.cons_append] at hrev
      have hx : x = '=' := (List.cons.injEq _ _ _ _ ▸ hrev).1
      have hw : w ++ v.reverse = s'.reverse := (List.cons.injEq _ _ _ _ ▸ hrev).2
      refine ⟨w.reverse, ?_⟩
      rw [h]
      have hs' : s' = v ++ w.reverse := by
        have := congrArg List.reverse hw
        simpa using this.symm
      rw [hs']
  · have hrev : u.reverse ++ v.reverse = '=' :: '=' :: s'.reverse := by
      have := congrArg List.reverse hs
      simpa using this
    cases hur : u.reverse with
    | nil =>
      rw [hur, List.nil_append] at hrev
      exact absurd (by
        have hm : '=' ∈ v.reverse := by rw [hrev]; simp
        simpa using hm) hv
    | cons x w =>
      rw [hur, List.cons_append] at hrev
      have hx : x = '=' := (List.cons.injEq _ _ _ _ ▸ hrev).1
      have hw : w ++ v.reverse = '=' :: s'.reverse := (List.cons.injEq _ _ _ _ ▸ hrev).2
      cases hwr : w with
      | nil =>
        rw [hwr, List.nil_append] at hw
        exact absurd (by
          have hm : '=' ∈ v.reverse := by rw [hw]; simp
          simpa using hm) hv
      | cons y w2 =>
        rw [hwr, List.cons_append] at hw
        have hy : y = '=' := (List.cons.injEq _ _ _ _ ▸ hw).1
        have hw2 : w2 ++ v.reverse = s'.reverse := (List.cons.injEq _ _ _ _ ▸ hw).2
        refine ⟨w2.reverse, ?_⟩
        rw [h]
        have hs' : s' = v ++ w2.reverse := by
          have := congrArg List.reverse hw2
          simpa using this.symm
        rw [hs']

theorem b64Vals?_append (v u : List Char) :
    b64Vals? (v ++ u) = (b64Vals? v).bind (fun a => (b64Vals? u).map (a ++ ·)) := by
  induction v with
  | nil => cases h : b64Vals? u <;> simp [b64Vals?, h]
  | cons c t ih =>
    cases hc : b64ValStd c with
    | none => simp [b64Vals?, hc]
    | some x =>
      cases ht : b64Vals? t with
      | none => simp [b64Vals?, hc, ht, ih]
      | some xs =>
        cases hu : b64Vals? u with
        | none => simp [b64Vals?, hc, ht, hu, ih]
        | some us => simp [b64Vals?, hc, ht, hu, ih]

theorem b64Vals?_replicateA (ps : Nat) :
    b64Vals? (List.replicate ps 'A') = some (List.replicate ps 0) := by
  induction ps with
  | zero => rfl
  | succ n ih =>
    have hA : b64ValStd 'A' = some 0 := by decide
    simp [List.replicate, b64Vals?, hA, ih]

theorem valsToBytes_zeros_bound (ps : Nat) (hps : 1 ≤ ps) (hps3 : ps ≤ 3)
    (vals3 : List Nat) (h3 : ∀ v ∈ vals3, v < 64) :
    readInt ((b64ValsToBytes (List.replicate ps 0 ++ vals3)).take ps) < 2 ^ (2 * ps) := by
  interval_cases ps
  · rcases vals3 with _ | ⟨v1, _ | ⟨v2, _ | ⟨v3, rest⟩⟩⟩
    · simp [b64ValsToBytes, readInt]
    · have h1 := h3 v1 (by simp)
      simp only [List.replicate, List.cons_append, List.nil_append,
        b64ValsToBytes, List.take, readInt, List.foldl]
      omega
    · have h1 := h3 v1 (by simp)
      simp only [List.replicate, List.cons_append, List.nil_append,
        b64ValsToBytes, List.take, readInt, List.foldl]
      omega
    · have h1 := h3 v1 (by simp)
      simp only [List.replicate, List.cons_append, List.nil_append,
        b64ValsToBytes, List.take, readInt, List.foldl]
      omega
  · rcases vals3 with _ | ⟨v2, _ | ⟨v3, rest⟩⟩
    · simp [b64ValsToBytes, readInt]
    · have h2 := h3 v2 (by simp)
      simp only [List.replicate, List.cons_append, List.nil_append,
        b64ValsToBytes, List.take, readInt, List.foldl]
      omega
    · have h2 := h3 v2 (by simp)
      simp only [List.replicate, List.cons_append, List.nil_append,
        b64ValsToBytes, List.take, readInt, List.foldl]
      omega
  · rcases vals3 with _ | ⟨v3, rest⟩
    · simp [b64ValsToBytes, readInt]
    · have hv3 := h3 v3 (by simp)
      simp only [List.replicate, List.cons_append, List.nil_append,
        b64ValsToBytes, List.take, readInt, List.foldl]
      omega

theorem atob_A_prefix_core (ps : Nat) (hps : 1 ≤ ps) (hps3 : ps ≤ 3)
    (u3 : List Char) (paw : List Nat)
    (h : (if (List.replicate ps 'A' ++ u3).length % 4 = 1
        then (Except.error Err.invalidCharacter : Except Err (List Nat))
        else match b64Vals? (List.replicate ps 'A' ++ u3) with
          | some vals => .ok (b64ValsToBytes vals)
          | none => .error .invalidCharacter) = .ok paw) :
    readInt (paw.take ps) < 2 ^ (2 * ps) := by
  by_cases hl : (List.replicate ps 'A' ++ u3).length % 4 = 1
  · rw [if_pos hl] at h
    cases h
  · rw [if_neg hl] at h
    cases hv : b64Vals? (List.replicate ps 'A' ++ u3) with
    | none => rw [hv] at h; cases h
    | some vals =>
      rw [hv] at h
      have hpaw : paw = b64ValsToBytes vals := by
        cases h
        rfl
      rw [b64Vals?_append, b64Vals?_replicateA] at hv
      cases hv3 : b64Vals? u3 with
      | none => rw [hv3] at hv; cases hv
      | some vals3 =>
        rw [hv3] at hv
        simp only [Option.some_bind, Option.map_some] at hv
        have hvals : vals = List.replicate ps 0 ++ vals3 := by
          cases hv
          rfl
        have hlt3 : ∀ v ∈ vals3, v < 64 := fun v hm =>
          b64Vals?_mem_lt u3 vals3 hv3 v hm
        subst hvals hpaw
        exact valsToBytes_zeros_bound ps hps hps3 vals3 hlt3

theorem atob_A_prefix (ps : Nat) (hps : 1 ≤ ps) (hps3 : ps ≤ 3)
    (u : List Char) (paw : List Nat)
    (h : atob (List.replicate ps 'A' ++ u) = .ok paw) :
    readInt (paw.take ps) < 2 ^ (2 * ps) := by
  have hAprops : isJsB64Ws 'A' = false ∧ ('A' : Char) ≠ '=' := by decide
  have hfilter : (List.replicate ps 'A' ++ u).filter (fun c => ¬ isJsB64Ws c)
      = List.replicate ps 'A' ++ u.filter (fun c => ¬ isJsB64Ws c) := by
    rw [List.filter_append]
    congr 1
    rw [List.filter_eq_self]
    intro a ha
    have : a = 'A' := List.eq_of_mem_replicate ha
    subst this
    simp [hAprops.1]
  have hnoeqA : '=' ∉ List.replicate ps 'A' := by
    intro hm
    exact hAprops.2 (List.eq_of_mem_replicate hm).symm
  rcases stripTrailingEq2_prefix (List.replicate ps 'A')
      (u.filter (fun c => ¬ isJsB64Ws c)) hnoeqA with ⟨u2, hstrip⟩
  simp only [atob, hfilter] at h
  by_cases hc4 : (List.replicate ps 'A'
      ++ u.filter (fun c => ¬ isJsB64Ws c)).length % 4 = 0
  · rw [if_pos hc4, hstrip] at h
    exact atob_A_prefix_core ps hps hps3 u2 paw h
  · rw [if_neg hc4] at h
    exact atob_A_prefix_core ps hps hps3 (u.filter (fun c => ¬ isJsB64Ws c)) paw h

theorem decode_A_prefix_bound (ps : Nat) (hps : 1 ≤ ps) (hps3 : ps ≤ 3)
    (t : List Nat) (paw : List Nat)
    (h : decodeBase64Url (List.replicate ps 65 ++ t) = .ok paw) :
    readInt (paw.take ps) < 2 ^ (2 * ps) := by
  simp only [decodeBase64Url] at h
  have hA : stdOf (fromCharCode 65) = 'A' := by decide
  have hmap : ((List.replicate ps 65 ++ t).map fromCharCode).map stdOf
      = List.replicate ps 'A' ++ ((t.map fromCharCode).map stdOf) := by
    simp [List.map_append, List.map_replicate, hA]
  rw [hmap, List.append_assoc] at h
  simp only [List.length_append, List.length_replicate] at h
  exact atob_A_prefix ps hps hps3 _ paw h

/-- C4: pad-bit and lead-byte validation in `matterRawExtract` (the body of
`fromMatterQB64b` after sizing).  With `ps = cs % 4`: if `ps > 0`, the
extractor prepends `ps` zero-value `'A'` characters (byte 65) to the
post-code material and Base64-decodes; it fails with NonZeroPadBits exactly
when the integer read from the first `ps` decoded bytes is non-zero (the
masked test `pi & (2^(2ps) - 1)` is equivalent because the prepended zero
characters bound that integer below `2^(2ps)`), otherwise dropping those
`ps` bytes.  If `ps = 0`, it Base64-decodes the post-code material directly
and fails with NonZeroLeadBytes exactly when the integer read from the first
`ls` bytes is non-zero, otherwise dropping those `ls` bytes. -/
theorem claim_C4_pad_validation :
    (∀ (cs ls : Nat) (q paw : List Nat),
      0 < cs % 4 →
      decodeBase64Url (List.replicate (cs % 4) 65 ++ q.drop cs) = .ok paw →
      ((matterRawExtract cs ls q = .error .nonZeroPadBits
          ↔ readInt (paw.take (cs % 4)) ≠ 0) ∧
       (readInt (paw.take (cs % 4)) = 0 →
          matterRawExtract cs ls q = .ok (paw.drop (cs % 4))))) ∧
    (∀ (cs ls : Nat) (q paw : List Nat),
      cs % 4 = 0 →
      decodeBase64Url (q.drop cs) = .ok paw →
      ((matterRawExtract cs ls q = .error .nonZeroLeadBytes
          ↔ readInt (paw.take ls) ≠ 0) ∧
       (readInt (paw.take ls) = 0 →
          matterRawExtract cs ls q = .ok (paw.drop ls)))) := by
  constructor
  · intro cs ls q paw hps hdec
    have hps3 : cs % 4 ≤ 3 := by omega
    have hbound := decode_A_prefix_bound (cs % 4) hps hps3 (q.drop cs) paw hdec
    have hmask : readInt (paw.take (cs % 4)) &&& (2 ^ (2 * (cs % 4)) - 1)
        = readInt (paw.take (cs % 4)) := by
      rw [Nat.and_pow_two_sub_one_eq_mod]
      exact Nat.mod_eq_of_lt hbound
    refine ⟨⟨?_, ?_⟩, ?_⟩
    · intro herr
      intro hpi0
      simp only [matterRawExtract, if_pos hps, hdec, hpi0] at herr
      simp at herr
    · intro hpi
      simp only [matterRawExtract, if_pos hps, hdec]
      rw [hmask, if_pos hpi]
    · intro hpi
      simp only [matterRawExtract, if_pos hps, hdec, hpi]
      simp
  · intro cs ls q paw hz hdec
    refine ⟨⟨?_, ?_⟩, ?_⟩
    · intro herr
      intro hpi0
      simp only [matterRawExtract, hz] at herr
      simp only [hdec, hpi0] at herr
      simp at herr
    · intro hpi
      have hpi2 : 0 < readInt (paw.take ls) := Nat.pos_of_ne_zero hpi
      simp only [matterRawExtract, hz]
      simp only [hdec]
      simp [hpi2]
    · intro hpi
      simp only [matterRawExtract, hz]
      simp only [hdec, hpi]
      simp

/-- C4 witness: both branches at concrete inputs — `cs = 1` (`ps = 1`) on
"BAAA" with all-zero pad bits, and `cs = 4`, `ls = 1` on eight `'A'`s with a
zero lead byte. -/
theorem claim_C4_pad_validation_witness :
    (¬ matterRawExtract 1 0 [66, 65, 65, 65] = .error .nonZeroPadBits) ∧
    matterRawExtract 1 0 [66, 65, 65, 65] = .ok [0, 0] ∧
    matterRawExtract 4 1 [65, 65, 65, 65, 65, 65, 65, 65] = .ok [0, 0] := by
  have h1 := (claim_C4_pad_validation.1 1 0 [66, 65, 65, 65] [0, 0, 0]
    (by norm_num) rfl)
  have h2 := (claim_C4_pad_validation.2 4 1 [65, 65, 65, 65, 65, 65, 65, 65]
    [0, 0, 0] (by norm_num) rfl)
  refine ⟨?_, ?_, ?_⟩
  · intro herr
    have := h1.1.mp herr
    simp [readInt] at this
  · have := h1.2 (by decide)
    simpa using this
  · have := h2.2 (by decide)
    simpa using this

theorem readInt_replicate_zero (n : Nat) : readInt (List.replicate n 0) = 0 := by
  induction n with
  | zero => rfl
  | succ m ih => simpa [List.replicate, readInt, List.foldl] using ih

theorem utf8Decode_map_toNat (l : List Char) (h : ∀ c ∈ l, c.toNat < 128) :
    utf8Decode (l.map Char.toNat) = ⟨l⟩ := by
  unfold utf8Decode
  rw [List.map_map]
  congr 1
  induction l with
  | nil => rfl
  | cons c t ih =>
    have hc := h c (by simp)
    simp only [List.map_cons, Function.comp_apply]
    rw [ih (fun x hx => h x (by simp [hx]))]
    congr 1
    simp only [byteChar, if_pos hc]
    exact char_ofNat_toNat c hc

theorem bytesToVals_take_zeros (ps : Nat) (r : List Nat) (hps : ps ≤ 2)
    (hmod : (ps + r.length) % 3 = 0) :
    (bytesToVals (List.replicate ps 0 ++ r)).take ps = List.replicate ps 0 := by
  interval_cases ps
  · simp
  · rcases r with _ | ⟨r0, _ | ⟨r1, rest⟩⟩
    · simp at hmod
    · simp at hmod
    · simp [List.replicate, bytesToVals, List.take]
  · rcases r with _ | ⟨r0, rest⟩
    · simp at hmod
    · simp [List.replicate, bytesToVals, List.take]

theorem decode_enc_chars (vs : List Nat) (hv : ∀ v ∈ vs, v < 64) :
    ((vs.map (fun v => (urlOf (b64ChrStd v)).toNat)).map fromCharCode).map stdOf
      = vs.map b64ChrStd := by
  induction vs with
  | nil => rfl
  | cons v t ih =>
    have hfacts := b64Char_facts v (hv v (by simp))
    simp only [List.map_cons]
    rw [ih (fun x hx => hv x (by simp [hx]))]
    congr 1
    rw [hfacts.2.2.2.2.2.2]
    exact hfacts.2.2.2.1

theorem int_fdiv_natCast4 (a : Nat) : Int.fdiv (a : Int) 4 = ((a / 4 : Nat) : Int) := by
  rw [Int.fdiv_eq_tdiv (by positivity : (0:Int) ≤ (a:Int)) (by norm_num : (0:Int) ≤ 4)]
  exact (Int.ofNat_tdiv a 4).symm

theorem decodeBase64Url_tail (ps : Nat) (r : List Nat) (hps : ps ≤ 2)
    (hr : ∀ x ∈ r, x < 256) (hmod : (ps + r.length) % 3 = 0) :
    decodeBase64Url (List.replicate ps 65
      ++ ((bytesToVals (List.replicate ps 0 ++ r)).drop ps).map
           (fun v => (urlOf (b64ChrStd v)).toNat))
      = .ok (List.replicate ps 0 ++ r) := by
  have hall : ∀ x ∈ List.replicate ps 0 ++ r, x < 256 := by
    intro x hx
    rcases List.mem_append.1 hx with h | h
    · have : x = 0 := List.eq_of_mem_replicate h
      omega
    · exact hr x h
  have hv64 : ∀ v ∈ bytesToVals (List.replicate ps 0 ++ r), v < 64 :=
    bytesToVals_lt _ hall
  have hv64d : ∀ v ∈ (bytesToVals (List.replicate ps 0 ++ r)).drop ps, v < 64 :=
    fun v hm => hv64 v (List.mem_of_mem_drop hm)
  have htk : (bytesToVals (List.replicate ps 0 ++ r)).take ps = List.replicate ps 0 :=
    bytesToVals_take_zeros ps r hps hmod
  have hlenv : (bytesToVals (List.replicate ps 0 ++ r)).length
      = 4 * ((ps + r.length) / 3) := by
    rw [bytesToVals_length]
    simp only [List.length_append, List.length_replicate]
    omega
  have hmap : (((List.replicate ps 65
      ++ ((bytesToVals (List.replicate ps 0 ++ r)).drop ps).map
           (fun v => (urlOf (b64ChrStd v)).toNat)).map fromCharCode).map stdOf)
      = (bytesToVals (List.replicate ps 0 ++ r)).map b64ChrStd := by
    rw [List.map_append, List.map_append]
    have h65 : stdOf (fromCharCode 65) = 'A' := by decide
    have hleft : ((List.replicate ps 65).map fromCharCode).map stdOf
        = List.replicate ps 'A' := by
      simp [List.map_replicate, h65]
    have hright : ((((bytesToVals (List.replicate ps 0 ++ r)).drop ps).map
          (fun v => (urlOf (b64ChrStd v)).toNat)).map fromCharCode).map stdOf
        = ((bytesToVals (List.replicate ps 0 ++ r)).drop ps).map b64ChrStd :=
      decode_enc_chars ((bytesToVals (List.replicate ps 0 ++ r)).drop ps) hv64d
    rw [hleft, hright]
    have hA0 : b64ChrStd 0 = 'A' := by decide
    conv_rhs => rw [← List.take_append_drop ps (bytesToVals (List.replicate ps 0 ++ r))]
    rw [List.map_append, htk, List.map_replicate, hA0]
  simp only [decodeBase64Url]
  rw [hmap]
  have hlen4 : ((bytesToVals (List.replicate ps 0 ++ r)).map b64ChrStd).length % 4 = 0 := by
    simp only [List.length_map, hlenv]
    omega
  rw [hlen4]
  simp only [gt_iff_lt, lt_self_iff_false, if_false, List.replicate_zero, List.append_nil]
  have hclean := atob_clean (bytesToVals (List.replicate ps 0 ++ r)) hv64 0
    (by norm_num) (by simpa using hlen4)
  simp only [List.replicate_zero, List.append_nil] at hclean
  rw [hclean, b64ValsToBytes_bytesToVals _ hall]

/-- C1 witness fixture: a one-character matter code table with hard size 1,
no soft part, fixed size 4 and no lead bytes. -/
def c1Table : CodeTable :=
  ⟨1, fun _ => .error (.genericError "unused"),
   fun _ => .error (.genericError "unused"),
   some ⟨1, 0, some 4, 0⟩⟩

/-- C1 witness fixture: a protocol resolving every code to `c1Table`. -/
def c1Protocol : Protocol :=
  .mk "C1" (fun _ => 1) (fun _ => .ok c1Table)
    (fun _ => false) (fun _ => false) (fun _ => false) (fun _ => none)

/-- C1 witness fixture: hard-size tables giving every matter code hard size
1. -/
def c1Tables : HardTables := ⟨fun _ => some 1, fun _ => none⟩

/-- C1: round trip of fixed-size matter primitives (the spec round-trip law):
for every raw byte list `r` and fixed-size matter code `c` with no soft-size
digits whose size descriptor is consistent with the raw size — the code-size
remainder matches the net pad size (`cs % 4 = ps − ls`), the fixed size and
the raw size agree with the Base64 sizing, and the code fits inside the fixed
size — decoding the qualified text produced by `toMatterQB64b` with
`fromMatterQB64b` returns the code `c`, the fixed size `F`, and exactly the
raw bytes `r`. -/
theorem claim_C1_matter_roundtrip
    (tables : HardTables) (P : Protocol) (Tc : CodeTable) (c : String)
    (F ls : Nat) (r : List Nat)
    (hr : ∀ x ∈ r, x < 256)
    (hcd : c.data ≠ [])
    (hascii : ∀ ch ∈ c.data, ch.toNat < 128)
    (hhard : tables.matterHards (strSlice c 0 1) = some c.data.length)
    (htab : P.getCodeTable c = .ok Tc)
    (hsz : Tc.sizes = some ⟨c.data.length, 0, some F, ls⟩)
    (hchk : ((c.data.length % 4 : Nat) : Int)
      = (((3 - (r.length + ls) % 3) % 3 : Nat) : Int) - (ls : Int))
    (hF : F + c.data.length % 4
      = c.data.length + 4 * (((3 - (r.length + ls) % 3) % 3 + ls + r.length) / 3))
    (hraw : r.length + ls = (F - c.data.length) * 3 / 4)
    (hcsF : c.data.length ≤ F) :
    (toMatterQB64b r c P).bind
      (fun enc => fromMatterQB64b tables (.bytes enc) P) = .ok (c, F, r) := by
  obtain ⟨c0, ct, hc0⟩ := List.exists_cons_of_ne_nil hcd
  have hc0a : c0.toNat < 128 := hascii c0 (by rw [hc0]; exact List.mem_cons_self c0 ct)
  have hcpos : 0 < c.data.length := by rw [hc0]; simp
  have hls0 : ls = 0 := by omega
  subst hls0
  have hps4 : (3 - r.length % 3) % 3 = c.data.length % 4 := by omega
  have hpsle2 : c.data.length % 4 ≤ 2 := by omega
  have hmod : (c.data.length % 4 + r.length) % 3 = 0 := by omega
  have hall : ∀ x ∈ List.replicate (c.data.length % 4) 0 ++ r, x < 256 := by
    intro x hx
    rcases List.mem_append.1 hx with h | h
    · have := List.eq_of_mem_replicate h
      omega
    · exact hr x h
  have hv64 : ∀ v ∈ bytesToVals (List.replicate (c.data.length % 4) 0 ++ r), v < 64 :=
    bytesToVals_lt _ hall
  have henc := (encodeBase64Url_spec (List.replicate (c.data.length % 4) 0 ++ r) hall).1
  have hlenv : (bytesToVals (List.replicate (c.data.length % 4) 0 ++ r)).length
      = 4 * ((c.data.length % 4 + r.length) / 3) := by
    rw [bytesToVals_length]
    simp only [List.length_append, List.length_replicate]
    omega
  unfold toMatterQB64b
  simp only [htab, hsz, Nat.add_zero, Nat.cast_zero, sub_zero, hps4]
  split
  · rename_i hcond
    exfalso
    apply hcond
    rfl
  · simp only [Except.bind]
    have hstr : ∀ l : List Char, utf8Encode (c ++ ⟨l⟩) = utf8Encode ⟨c.data ++ l⟩ :=
      fun l => rfl
    have hasc2 : ∀ ch ∈ c.data
        ++ ((bytesToVals (List.replicate (c.data.length % 4) 0 ++ r)).drop
              (c.data.length % 4)).map (fun v => urlOf (b64ChrStd v)),
        ch.toNat < 128 := by
      intro ch hch
      rcases List.mem_append.1 hch with h | h
      · exact hascii ch h
      · rcases List.mem_map.1 h with ⟨v, hv2, hEq⟩
        have hlt := (b64Char_facts v (hv64 v (List.mem_of_mem_drop hv2))).2.2.2.2.2.1
        rw [← hEq]
        exact hlt
    have hbytes : utf8Encode (c ++
        ⟨(encodeBase64Url (List.replicate (c.data.length % 4) 0 ++ r) true).drop
          (c.data.length % 4)⟩)
        = c.data.map Char.toNat
          ++ ((bytesToVals (List.replicate (c.data.length % 4) 0 ++ r)).drop
                (c.data.length % 4)).map (fun v => (urlOf (b64ChrStd v)).toNat) := by
      rw [henc, ← List.map_drop, hstr, utf8Encode_ascii _ hasc2, List.map_append,
        List.map_map]
      rfl
    rw [hbytes]
    set eB := c.data.map Char.toNat
      ++ ((bytesToVals (List.replicate (c.data.length % 4) 0 ++ r)).drop
            (c.data.length % 4)).map (fun v => (urlOf (b64ChrStd v)).toNat) with heB
    have henclen : eB.length = F := by
      rw [heB]
      simp only [List.length_append, List.length_map, List.length_drop, hlenv]
      omega
    have h0 : ¬ eB.length = 0 := by omega
    have hmaplen : (c.data.map Char.toNat).length = c.data.length := by simp
    have hfirst : utf8Decode (eB.take 1) = strSlice c 0 1 := by
      rw [heB]
      have hbc : byteChar c0.toNat = c0 := by
        unfold byteChar
        rw [if_pos hc0a]
        exact char_ofNat_toNat c0 hc0a
      simp [utf8Decode, strSlice, hc0, hbc]
    have hhard2 : tables.matterHards (utf8Decode (eB.take 1)) = some c.data.length := by
      rw [hfirst]
      exact hhard
    have hnlt1 : ¬ eB.length < c.data.length := by omega
    have htakecs : eB.take c.data.length = c.data.map Char.toNat := by
      rw [heB]
      exact List.take_left' hmaplen
    have hardeq : utf8Decode (eB.take c.data.length) = c := by
      rw [htakecs, utf8Decode_map_toNat c.data hascii]
    have htab2 : P.getCodeTable (utf8Decode (eB.take c.data.length)) = .ok Tc := by
      rw [hardeq]
      exact htab
    have hnlt2 : ¬ eB.length < F := by omega
    have htakeF : eB.take F = eB := by
      rw [← henclen]
      exact List.take_length eB
    have hdropcs : eB.drop c.data.length
        = ((bytesToVals (List.replicate (c.data.length % 4) 0 ++ r)).drop
             (c.data.length % 4)).map (fun v => (urlOf (b64ChrStd v)).toNat) := by
      rw [heB]
      exact List.drop_left' hmaplen
    have hrep_len : (List.replicate (c.data.length % 4) 0).length = c.data.length % 4 :=
      List.length_replicate _ _
    have hext : matterRawExtract c.data.length 0 eB = .ok r := by
      simp only [matterRawExtract]
      by_cases hps0 : c.data.length % 4 > 0
      · simp only [if_pos hps0, hdropcs,
          decodeBase64Url_tail (c.data.length % 4) r hpsle2 hr hmod]
        rw [List.take_left' hrep_len, readInt_replicate_zero]
        have hcond0 : ¬ ((0 : Nat) &&& (2 ^ (2 * (c.data.length % 4)) - 1) ≠ 0) := by
          simp
        rw [if_neg hcond0, List.drop_left' hrep_len]
      · have hps00 : c.data.length % 4 = 0 := by omega
        have hmod0 : (0 + r.length) % 3 = 0 := by omega
        have hd := decodeBase64Url_tail 0 r (by norm_num) hr hmod0
        simp only [List.replicate_zero, List.nil_append, List.drop_zero] at hd
        simp only [if_neg hps0, hdropcs, hps00, List.replicate_zero, List.nil_append,
          List.drop_zero, hd, List.take_zero]
        simp [readInt]
    have hconv : ((r.length : Int))
        = Int.fdiv (((eB.length : Int) - (c.data.length : Int)) * 3) 4 := by
      rw [henclen]
      have h1 : ((F : Int) - (c.data.length : Int)) * 3
          = (((F - c.data.length) * 3 : Nat) : Int) := by omega
      rw [h1, int_fdiv_natCast4]
      omega
    simp only [fromMatterQB64b, h0, if_false, hhard2, if_neg hnlt1, htab2, hsz,
      Nat.add_zero, if_neg hnlt2, htakeF, hext, Nat.cast_zero, sub_zero, hconv,
      ne_eq, eq_self_iff_true, not_true, if_false, hardeq, htab]

/-- C1 witness: the round trip at the one-character code `"E"` with fixed
size 4 and raw bytes `[1, 2]`. -/
theorem claim_C1_matter_roundtrip_witness :
    (toMatterQB64b [1, 2] "E" c1Protocol).bind
      (fun enc => fromMatterQB64b c1Tables (.bytes enc) c1Protocol)
      = .ok ("E", 4, [1, 2]) :=
  claim_C1_matter_roundtrip c1Tables c1Protocol c1Table "E" 4 0 [1, 2]
    (by decide) (by decide) (by decide) rfl rfl rfl
    (by decide) (by decide) (by decide) (by decide)

end Cesr
